import Mathlib

/-!
Verification of the doomless offline content-extraction and quiz-generation
pipeline against its natural-language specification.

The definitions below are a shallow embedding of the TypeScript source:

* `src/doomless/src/services/AIService.ts` — progress events, `emitProgress`,
  `initialize`, `parseQuizBatch`, `generateQuizQuestions`;
* the fact-extraction `AIService` variant stored in
  `src/doomless/src/services/TextProcessor.ts` (second document in the file) —
  `stripThinkingBlocks`, `parseTextToFacts`, `parseFactsJson`,
  `attemptJsonRecovery`, `collectFactsFromContents`, `splitTextIntoSentences`,
  `fallbackParseTextToFacts`;
* `src/doomless/src/services/TextProcessor.ts` — `addQuizFacts`.

External collaborators (the Cactus completion capability, `JSON.parse`,
timestamps) are modelled as explicit oracle parameters.  JavaScript strings
are modelled as Lean strings (lists of chars), JavaScript numbers appearing
in quiz answers as integers plus an explicit non-finite marker
(`Math.floor` is the identity on the modelled integers; non-integer and
non-finite answers land in the same clamped range either way).
-/

namespace Doomless

/-! ## JavaScript string primitives -/

/-- The whitespace class used by `String.prototype.trim` and `\s`
(the ASCII cases plus no-break space; the proofs do not depend on the
exact set, only on it being a fixed predicate). -/
def isJsWs (c : Char) : Bool :=
  c = ' ' || c = '\t' || c = '\n' || c = '\r' ||
    c = (Char.ofNat 12) || c = (Char.ofNat 11) || c = (Char.ofNat 160)

/-- Drop leading JS whitespace. -/
def trimLeft (cs : List Char) : List Char := cs.dropWhile isJsWs

/-- Drop trailing JS whitespace. -/
def trimRight (cs : List Char) : List Char :=
  (cs.reverse.dropWhile isJsWs).reverse

/-- `String.prototype.trim` on the char-list representation. -/
def trimChars (cs : List Char) : List Char := trimRight (trimLeft cs)

/-- `s.trim()`. -/
def trimS (s : String) : String := String.mk (trimChars s.data)

/-- `s.toLowerCase()` (modelled per char). -/
def lowerS (s : String) : String := String.mk (s.data.map Char.toLower)

/-- `s.slice(0, n)`. -/
def takeS (n : Nat) (s : String) : String := String.mk (s.data.take n)

theorem dropWhile_length_le (p : Char → Bool) (cs : List Char) :
    (cs.dropWhile p).length ≤ cs.length := by
  induction cs with
  | nil => simp
  | cons c rest ih =>
    by_cases h : p c
    · simp only [List.dropWhile, h]
      exact Nat.le_trans ih (by simp)
    · simp [List.dropWhile, h]

theorem dropWhile_ne_nil_head (p : Char → Bool) (cs : List Char) :
    cs.dropWhile p = [] ∨
      ∃ c rest, cs.dropWhile p = c :: rest ∧ p c = false := by
  induction cs with
  | nil => exact Or.inl rfl
  | cons c rest ih =>
    by_cases h : p c
    · simpa [List.dropWhile, h] using ih
    · exact Or.inr ⟨c, rest, by simp [List.dropWhile, h], by simpa using h⟩

theorem dropWhile_idem (p : Char → Bool) (cs : List Char) :
    (cs.dropWhile p).dropWhile p = cs.dropWhile p := by
  rcases dropWhile_ne_nil_head p cs with h | ⟨c, rest, h, hc⟩
  · simp [h]
  · simp [h, List.dropWhile, hc]

theorem trimRight_append (cs : List Char) :
    ∃ w, cs = trimRight cs ++ w := by
  refine ⟨(cs.reverse.takeWhile isJsWs).reverse, ?_⟩
  show cs = (cs.reverse.dropWhile isJsWs).reverse ++ (cs.reverse.takeWhile isJsWs).reverse
  rw [← List.reverse_append, List.takeWhile_append_dropWhile, List.reverse_reverse]

theorem trimRight_idem (cs : List Char) :
    trimRight (trimRight cs) = trimRight cs := by
  simp [trimRight, dropWhile_idem]

theorem trimLeft_head_not_ws (cs : List Char) :
    trimLeft cs = [] ∨
      ∃ c rest, trimLeft cs = c :: rest ∧ isJsWs c = false :=
  dropWhile_ne_nil_head isJsWs cs

theorem trimLeft_eq_self_of_head (cs : List Char)
    (h : cs = [] ∨ ∃ c rest, cs = c :: rest ∧ isJsWs c = false) :
    trimLeft cs = cs := by
  rcases h with h | ⟨c, rest, h, hc⟩
  · simp [trimLeft, h]
  · simp [trimLeft, h, List.dropWhile, hc]

theorem trimLeft_trimChars (cs : List Char) :
    trimLeft (trimChars cs) = trimChars cs := by
  apply trimLeft_eq_self_of_head
  rcases trimLeft_head_not_ws cs with h | ⟨c, rest, h, hc⟩
  · left; simp [trimChars, h, trimRight]
  · rcases trimRight_append (trimLeft cs) with ⟨w, hw⟩
    rcases heq : trimRight (trimLeft cs) with _ | ⟨d, ds⟩
    · left; simp [trimChars, heq]
    · right
      refine ⟨d, ds, by simp [trimChars, heq], ?_⟩
      have : c :: rest = d :: (ds ++ w) := by
        rw [← h, hw, heq]; simp
      have hd : d = c := by
        have := congrArg (fun l => l.head?) this
        simpa using this.symm
      rw [hd]; exact hc

theorem trimChars_idem (cs : List Char) :
    trimChars (trimChars cs) = trimChars cs := by
  unfold trimChars
  rw [show trimLeft (trimRight (trimLeft cs))
      = trimRight (trimLeft cs) from trimLeft_trimChars cs]
  exact trimRight_idem (trimLeft cs)

theorem trimS_idem (s : String) : trimS (trimS s) = trimS s := by
  simp [trimS, trimChars_idem]

theorem dropWhile_eq_nil_all (p : Char → Bool) (cs : List Char)
    (h : cs.dropWhile p = []) : ∀ x ∈ cs, p x = true := by
  induction cs with
  | nil => intro x hx; cases hx
  | cons c rest ih =>
    by_cases hc : p c
    · intro x hx
      rcases List.mem_cons.mp hx with rfl | hx
      · exact hc
      · exact ih (by simpa [List.dropWhile, hc] using h) x hx
    · simp [List.dropWhile, hc] at h

theorem trimChars_eq_nil_all (cs : List Char)
    (h : trimChars cs = []) : ∀ x ∈ cs, isJsWs x = true := by
  have h1 : (trimLeft cs).reverse.dropWhile isJsWs = [] := by
    have := congrArg List.reverse h
    simpa [trimChars, trimRight] using this
  have h2 : ∀ x ∈ trimLeft cs, isJsWs x = true := by
    intro x hx
    exact dropWhile_eq_nil_all isJsWs (trimLeft cs).reverse h1 x
      (List.mem_reverse.mpr hx)
  intro x hx
  have hsplit : cs.takeWhile isJsWs ++ trimLeft cs = cs :=
    List.takeWhile_append_dropWhile (p := isJsWs) (l := cs)
  rw [← hsplit] at hx
  rcases List.mem_append.mp hx with hx | hx
  · exact List.mem_takeWhile_imp hx
  · exact h2 x hx

theorem trimChars_ne_nil (cs : List Char) (x : Char)
    (hx : x ∈ cs) (hxw : isJsWs x = false) : trimChars cs ≠ [] := by
  intro h
  have := trimChars_eq_nil_all cs h x hx
  simp [this] at hxw

/-! ## `stripThinkingBlocks`

Embeds (TextProcessor.ts, second document, fact-extraction `AIService`):
```
function stripThinkingBlocks(raw: string): string {
  if (!raw) return raw;
  let cleaned = raw.replace(/<think>[\s\S]*?<\/think>/gi, '');
  cleaned = cleaned.replace(/<think>|<\/think>/gi, '');
  return cleaned.trim();
}
```
Both `replace` passes scan left to right and continue after each match
without rescanning the substituted (empty) text, exactly as the JS global
regex replace does. -/

/-- The opening reasoning marker. -/
def thinkOpen : List Char := ['<', 't', 'h', 'i', 'n', 'k', '>']

/-- The closing reasoning marker. -/
def thinkClose : List Char := ['<', '/', 't', 'h', 'i', 'n', 'k', '>']

/-- Case-insensitive "the pattern is a leading part of the text"
(the `i` regex flag). -/
def startsWithCI : List Char → List Char → Bool
  | [], _ => true
  | _ :: _, [] => false
  | p :: ps, c :: cs => (Char.toLower c = Char.toLower p) && startsWithCI ps cs

/-- Search for the first closing marker; return the text after it
(the lazy `[\s\S]*?<\/think>` part of the paired regex). -/
def findAfterClose : List Char → Option (List Char)
  | [] => none
  | c :: rest =>
    if startsWithCI thinkClose (c :: rest) then some ((c :: rest).drop 8)
    else findAfterClose rest

theorem findAfterClose_length {cs out : List Char}
    (h : findAfterClose cs = some out) : out.length < cs.length := by
  induction cs with
  | nil => simp [findAfterClose] at h
  | cons c rest ih =>
    by_cases hc : startsWithCI thinkClose (c :: rest)
    · simp only [findAfterClose, hc, if_pos] at h
      cases h
      simp only [List.length_drop, List.length_cons]
      omega
    · simp only [findAfterClose, hc, if_neg, Bool.false_eq_true,
        not_false_eq_true] at h
      exact Nat.lt_trans (ih h) (by simp)

/-- First `replace` pass: `raw.replace(/<think>[\s\S]*?<\/think>/gi, '')`,
by fuel (every step consumes at least one char, so fuel = input length
suffices and the fuel-exhausted case is unreachable; see
`findAfterClose_length`).  When an opening marker has no closing marker
anywhere after it, no later opening marker can have one either, so the
rest of the text is kept verbatim (the regex simply stops matching). -/
def removeThinkPairsGo : Nat → List Char → List Char
  | _, [] => []
  | 0, cs => cs
  | fuel + 1, c :: rest =>
    if startsWithCI thinkOpen (c :: rest) then
      match findAfterClose ((c :: rest).drop 7) with
      | some out => removeThinkPairsGo fuel out
      | none => c :: rest
    else c :: removeThinkPairsGo fuel rest

/-- First `replace` pass at its sufficient fuel. -/
def removeThinkPairs (cs : List Char) : List Char :=
  removeThinkPairsGo cs.length cs

/-- Second `replace` pass: `cleaned.replace(/<think>|<\/think>/gi, '')`,
by fuel (each match consumes 7 or 8 chars, a non-match one char). -/
def removeThinkTagsGo : Nat → List Char → List Char
  | _, [] => []
  | 0, cs => cs
  | fuel + 1, c :: rest =>
    if startsWithCI thinkOpen (c :: rest) then removeThinkTagsGo fuel ((c :: rest).drop 7)
    else if startsWithCI thinkClose (c :: rest) then removeThinkTagsGo fuel ((c :: rest).drop 8)
    else c :: removeThinkTagsGo fuel rest

/-- Second `replace` pass at its sufficient fuel. -/
def removeThinkTags (cs : List Char) : List Char :=
  removeThinkTagsGo cs.length cs

/-- `stripThinkingBlocks` from the source (empty input is returned as is). -/
def stripThinkingBlocks (s : String) : String :=
  if s.data = [] then s
  else String.mk (trimChars (removeThinkTags (removeThinkPairs s.data)))

/-- `true` when some position of the text starts a reasoning marker
(case-insensitively). -/
def containsThinkTag : List Char → Bool
  | [] => false
  | c :: rest =>
    startsWithCI thinkOpen (c :: rest) || startsWithCI thinkClose (c :: rest) ||
      containsThinkTag rest

theorem removeThinkPairsGo_of_no_tag (fuel : Nat) :
    ∀ cs : List Char, containsThinkTag cs = false →
      removeThinkPairsGo fuel cs = cs := by
  induction fuel with
  | zero => intro cs _; cases cs <;> rfl
  | succ fuel ih =>
    intro cs h
    cases cs with
    | nil => rfl
    | cons c rest =>
      simp only [containsThinkTag, Bool.or_eq_false_iff] at h
      rw [removeThinkPairsGo, if_neg (by simp [h.1.1])]
      rw [ih rest h.2]

theorem removeThinkPairs_of_no_tag (cs : List Char)
    (h : containsThinkTag cs = false) : removeThinkPairs cs = cs :=
  removeThinkPairsGo_of_no_tag cs.length cs h

theorem removeThinkTagsGo_of_no_tag (fuel : Nat) :
    ∀ cs : List Char, containsThinkTag cs = false →
      removeThinkTagsGo fuel cs = cs := by
  induction fuel with
  | zero => intro cs _; cases cs <;> rfl
  | succ fuel ih =>
    intro cs h
    cases cs with
    | nil => rfl
    | cons c rest =>
      simp only [containsThinkTag, Bool.or_eq_false_iff] at h
      rw [removeThinkTagsGo, if_neg (by simp [h.1.1]), if_neg (by simp [h.1.2])]
      rw [ih rest h.2]

theorem removeThinkTags_of_no_tag (cs : List Char)
    (h : containsThinkTag cs = false) : removeThinkTags cs = cs :=
  removeThinkTagsGo_of_no_tag cs.length cs h

/-! ## Data model -/

/-- The `source` tag of a fact (`'cactus' | 'fallback' | 'default'` in the
source variants). -/
inductive FactSource where
  | cactus
  | fallback
  | default
deriving DecidableEq, Repr

/-- `Fact` (src/doomless/src/types/Fact.ts); the optional quiz payload is
not needed for the extraction-pipeline claims. -/
structure Fact where
  id : Nat
  content : String
  topic : String
  source : FactSource
  created_at : String
deriving DecidableEq, Repr

/-- `QuizQuestion` (AIService.ts). -/
structure QuizQuestion where
  question : String
  options : List String
  correct_answer : Int
deriving DecidableEq, Repr

/-- `AIProgressEvent` (AIService.ts / the fact-extraction variant). -/
inductive AIProgressEvent where
  | modelDownload (progress : Int)
  | parseStart (topic : String) (totalChunks : Nat)
  | parseChunkStart (topic : String) (chunkIndex totalChunks : Nat)
  | parseChunkComplete (topic : String) (chunkIndex totalChunks factsGenerated : Nat)
  | parseComplete (topic : String) (totalChunks factsGenerated : Nat)
  | parseError (topic : String) (message : String)
  | storageSaveProgress (topic : String) (saved total : Nat)
  | storageComplete (topic : String) (total : Nat)
  | quizStart (topic : String) (total : Nat)
  | quizProgress (topic : String) (current total : Nat)
  | quizComplete (topic : String) (total : Nat)
deriving DecidableEq, Repr

/-- Tag check for `parse-chunk-start` events. -/
def isChunkStart : AIProgressEvent → Bool
  | .parseChunkStart _ _ _ => true
  | _ => false

/-- Tag check for `parse-chunk-complete` events. -/
def isChunkComplete : AIProgressEvent → Bool
  | .parseChunkComplete _ _ _ _ => true
  | _ => false

/-- Tag check for `parse-error` events. -/
def isParseError : AIProgressEvent → Bool
  | .parseError _ _ => true
  | _ => false

/-! ## Sentence segmentation (`splitTextIntoSentences`)

Embeds:
```
private splitTextIntoSentences(text: string): string[] {
  const cleaned = text.replace(/\s+/g, ' ').trim();
  if (!cleaned) return [];
  return cleaned
    .split(/(?<=[.!?])\s+/)
    .map((sentence) => sentence.trim())
    .filter((sentence) => sentence.length > 0);
}
```
-/

/-- `text.replace(/\s+/g, ' ')` scanner: `inRun` records whether the
current char continues a whitespace run already replaced by one space. -/
def collapseWsGo (inRun : Bool) : List Char → List Char
  | [] => []
  | c :: rest =>
    if isJsWs c then
      if inRun then collapseWsGo true rest
      else ' ' :: collapseWsGo true rest
    else c :: collapseWsGo false rest

/-- `text.replace(/\s+/g, ' ')`: every maximal whitespace run becomes one
space. -/
def collapseWs (cs : List Char) : List Char := collapseWsGo false cs

/-- Sentence-terminal punctuation of the split regex. -/
def isSentenceEnd (c : Char) : Bool := c = '.' || c = '!' || c = '?'

/-- `split(/(?<=[.!?])\s+/) ` scanner: cut at every maximal whitespace run
immediately preceded by sentence-terminal punctuation.  `acc` holds the
reversed chars of the piece being built; `skipping` records that the
current char may still belong to the separator run being consumed. -/
def splitAfterPunct (skipping : Bool) (acc : List Char) :
    List Char → List (List Char)
  | [] => [acc.reverse]
  | c :: rest =>
    if skipping && isJsWs c then splitAfterPunct true acc rest
    else if isJsWs c && (match acc with | p :: _ => isSentenceEnd p | [] => false) then
      acc.reverse :: splitAfterPunct true [] rest
    else
      splitAfterPunct false (c :: acc) rest

/-- `splitTextIntoSentences`. -/
def splitTextIntoSentences (text : String) : List String :=
  let cleaned := trimChars (collapseWs text.data)
  if cleaned = [] then []
  else
    ((splitAfterPunct false [] cleaned).map (fun cs => String.mk (trimChars cs))).filter
      (fun s => s.data.length > 0)

/-! ## Full-fallback extraction (`fallbackParseTextToFacts`)

Embeds:
```
private fallbackParseTextToFacts(text: string, topic: string): Fact[] {
  const sentences = this.splitTextIntoSentences(text);
  const MAX_FACTS = 60;
  const timestamp = new Date().toISOString();
  return sentences.slice(0, MAX_FACTS).map<Fact>((sentence) => ({
    id: 0, content: sentence.slice(0, 200), topic,
    source: 'fallback', created_at: timestamp }));
}
```
The timestamp is an oracle argument. -/

def fallbackParseTextToFacts (timestamp : String) (text topic : String) :
    List Fact :=
  ((splitTextIntoSentences text).take 60).map (fun sentence =>
    { id := 0
      content := takeS 200 sentence
      topic := topic
      source := FactSource.fallback
      created_at := timestamp })

/-! ## JSON values

`JSON.parse` is a JavaScript built-in; it is modelled as an oracle
`String → Option Json` (`none` = the parse threw).  Numbers are modelled as
integers plus a non-finite marker: `Math.floor` is the identity on the
modelled integers, and any real answer value lands in the same clamped
range, so the quiz-shape claims are unaffected. -/

inductive Json where
  | str (s : String)
  | num (n : Int)
  | numNonFinite
  | boolean (b : Bool)
  | null
  | arr (items : List Json)
  | obj (fields : List (String × Json))

/-- Property read `o.key` on a parsed JSON object. -/
def lookupField (fields : List (String × Json)) (key : String) : Option Json :=
  (fields.find? (fun kv => kv.1 == key)).map (fun kv => kv.2)

/-- `typeof v === 'string' ? v : undefined`. -/
def asStr : Option Json → Option String
  | some (Json.str s) => some s
  | _ => none

/-! ## `parseFactsJson` (fact-extraction `AIService`)

```
private parseFactsJson(raw) {
  const cleaned = stripThinkingBlocks(raw).trim();
  if (!cleaned) return [];
  const arrayMatch = cleaned.match(/\[[\s\S]*\]/);
  const candidate = arrayMatch ? arrayMatch[0] : cleaned;
  try {
    const parsed = JSON.parse(candidate);
    if (!Array.isArray(parsed)) return [];
    const facts = [];
    for (const item of parsed) {
      if (item && typeof item === 'object') {
        const content = typeof item.content === 'string' ? item.content
          : typeof item.fact === 'string' ? item.fact : '';
        if (content.trim().length > 0) facts.push({ content: content.trim() });
      }
    }
    return facts;
  } catch (e) { return []; }
}
```
-/

/-- `s.match(/\[[\s\S]*\]/)`: the segment from the first `[` to the last
`]` after it, if any. -/
def extractArray (s : String) : Option String :=
  let cs := s.data
  let pre := cs.takeWhile (fun c => !(c == '['))
  if pre.length = cs.length then none
  else
    let fromBr := cs.drop pre.length
    let revTail := fromBr.reverse.takeWhile (fun c => !(c == ']'))
    if revTail.length = fromBr.length then none
    else some (String.mk (fromBr.take (fromBr.length - revTail.length)))

/-- The `content` / `fact` field of one parsed item
(`''` when neither is a string). -/
def factItemContent (item : Json) : String :=
  match item with
  | Json.obj fields =>
    match asStr (lookupField fields "content") with
    | some s => s
    | none =>
      match asStr (lookupField fields "fact") with
      | some s => s
      | none => ""
  | _ => ""

/-- `parseFactsJson`, returning the accepted (trimmed) contents. Arrays and
primitives inside the parsed array contribute no content and are skipped,
as in the source (`typeof item === 'object'` admits arrays, whose missing
`content`/`fact` string properties yield `''`). -/
def parseFactsJson (jsonParse : String → Option Json) (raw : String) :
    List String :=
  let cleaned := trimS (stripThinkingBlocks raw)
  if cleaned.data = [] then []
  else
    let candidate := (extractArray cleaned).getD cleaned
    match jsonParse candidate with
    | none => []
    | some (Json.arr items) =>
      items.filterMap (fun item =>
        match item with
        | Json.obj _ =>
          let content := factItemContent item
          if trimChars content.data = [] then none else some (trimS content)
        | Json.arr _ =>
          -- passes the `typeof === 'object'` guard but `content` stays `''`
          none
        | _ => none)
    | some _ => []

/-! ## `attemptJsonRecovery` and `runCompletion`

The completion capability is an oracle `Nat → Except String String` indexed
by a running call counter (`.error` = the underlying `complete` call
rejected).  `runCompletion` strips reasoning blocks from each successful
response, as in the source. -/

/-- One `runCompletion` call (fact-extraction variant; the model handle is
present in model mode). -/
def runCompletion (oracle : Nat → Except String String) (calls : Nat) :
    Except String String × Nat :=
  match oracle calls with
  | Except.error e => (Except.error e, calls + 1)
  | Except.ok raw => (Except.ok (stripThinkingBlocks raw), calls + 1)

/-- `attemptJsonRecovery`: one reformat re-prompt; any failure yields `[]`.
Returns the recovered contents and the updated call counter. -/
def attemptJsonRecovery (jsonParse : String → Option Json)
    (oracle : Nat → Except String String) (calls : Nat)
    (rawResponse : String) (hasLm : Bool) : List String × Nat :=
  let cleaned := trimS (stripThinkingBlocks rawResponse)
  if cleaned.data = [] || !hasLm then ([], calls)
  else
    match runCompletion oracle calls with
    | (Except.error _, calls1) => ([], calls1)
    | (Except.ok response, calls1) => (parseFactsJson jsonParse response, calls1)

/-! ## `collectFactsFromContents` -/

/-- The model-mode fact cap (`MAX_FACTS` in `parseTextToFacts`). -/
def MAX_FACTS : Nat := 120

/-- `collectFactsFromContents`: trim, truncate to 200 chars, normalize to
lower case, skip duplicates via the run-scoped `seen` set, stop at the
cap.  Returns the grown fact list, the grown seen set, and the number of
facts accepted from this batch. -/
def collectFactsFromContents (topic timestamp : String) (source : FactSource)
    (maxFacts : Nat) :
    List String → List Fact → List String → List Fact × List String × Nat
  | [], allFacts, seen => (allFacts, seen, 0)
  | rawContent :: rest, allFacts, seen =>
    if maxFacts ≤ allFacts.length then (allFacts, seen, 0)
    else
      let content := trimS rawContent
      if content.data = [] then
        collectFactsFromContents topic timestamp source maxFacts rest allFacts seen
      else
        let truncated := takeS 200 content
        let normalized := lowerS truncated
        if normalized ∈ seen then
          collectFactsFromContents topic timestamp source maxFacts rest allFacts seen
        else
          let res := collectFactsFromContents topic timestamp source maxFacts rest
            (allFacts ++ [{ id := 0, content := truncated, topic := topic,
                            source := source, created_at := timestamp }])
            (normalized :: seen)
          (res.1, res.2.1, res.2.2 + 1)

/-! ## The chunk loop of `parseTextToFacts` -/

/-- Chunking loop
`for (let i = 0; i < len; i += chunkSize) push(slice(i, i + chunkSize))`,
by fuel (each chunk consumes at least one char for a positive chunk size,
so fuel = input length suffices). -/
def chunksOfGo (n : Nat) : Nat → List Char → List (List Char)
  | _, [] => []
  | 0, cs => [cs]
  | fuel + 1, c :: rest =>
    (c :: rest).take n :: chunksOfGo n fuel ((c :: rest).drop n)

/-- Chunking at its sufficient fuel. -/
def chunksOf (n : Nat) (cs : List Char) : List (List Char) :=
  chunksOfGo n cs.length cs

/-- The per-topic mutable state of one extraction run. -/
structure ParseState where
  facts : List Fact
  seen : List String
  events : List AIProgressEvent
  calls : Nat
deriving DecidableEq, Repr

/-- The body of one iteration of the chunk loop of `parseTextToFacts`:
emit `parse-chunk-start`; call the model (a rejection is caught, logged and
answered with `continue` — no fallback and no `parse-chunk-complete` for
that chunk); parse, retry via `attemptJsonRecovery` when empty, fall back
to sentence segmentation when still empty; collect; emit
`parse-chunk-complete`. -/
def processChunk (jsonParse : String → Option Json)
    (oracle : Nat → Except String String) (topic timestamp : String)
    (totalChunks chunkIndex : Nat) (chunk : String) (st : ParseState) :
    ParseState :=
  let st1 := { st with
    events := st.events ++ [AIProgressEvent.parseChunkStart topic chunkIndex totalChunks] }
  match runCompletion oracle st1.calls with
  | (Except.error _, calls1) =>
    -- `catch (completionError) { console.error(...); continue; }`
    { st1 with calls := calls1 }
  | (Except.ok modelResponse, calls1) =>
    let parsedFacts := parseFactsJson jsonParse modelResponse
    let recovered :=
      if parsedFacts.isEmpty then
        let rcv := attemptJsonRecovery jsonParse oracle calls1 modelResponse true
        (if rcv.1.isEmpty then parsedFacts else rcv.1, rcv.2)
      else (parsedFacts, calls1)
    if recovered.1.isEmpty then
      let fallbackSentences := splitTextIntoSentences chunk
      let res := collectFactsFromContents topic timestamp FactSource.fallback
        MAX_FACTS fallbackSentences st1.facts st1.seen
      { facts := res.1, seen := res.2.1,
        events := st1.events ++
          [AIProgressEvent.parseChunkComplete topic chunkIndex totalChunks res.2.2],
        calls := recovered.2 }
    else
      let res := collectFactsFromContents topic timestamp FactSource.cactus
        MAX_FACTS recovered.1 st1.facts st1.seen
      { facts := res.1, seen := res.2.1,
        events := st1.events ++
          [AIProgressEvent.parseChunkComplete topic chunkIndex totalChunks res.2.2],
        calls := recovered.2 }

/-- The chunk loop.  The top-of-loop `if (allFacts.length >= MAX_FACTS)
break;` is the guard below; the identical re-check at the bottom of the
source loop body is subsumed by the next iteration's guard. -/
def runChunkLoop (jsonParse : String → Option Json)
    (oracle : Nat → Except String String) (topic timestamp : String)
    (totalChunks : Nat) : Nat → List String → ParseState → ParseState
  | _, [], st => st
  | chunkIndex, chunk :: rest, st =>
    if MAX_FACTS ≤ st.facts.length then st
    else
      runChunkLoop jsonParse oracle topic timestamp totalChunks
        (chunkIndex + 1) rest
        (processChunk jsonParse oracle topic timestamp totalChunks chunkIndex chunk st)

/-- `parseTextToFacts` (fact-extraction `AIService` variant).  The
`fallbackEnabled`/`hasLm` flags are the relevant service state after
`ensureInitialized`; in the degraded branch the sentence fallback emits no
events, as in the source. -/
def parseTextToFacts (jsonParse : String → Option Json)
    (oracle : Nat → Except String String) (timestamp : String)
    (fallbackEnabled hasLm : Bool) (text topic : String) :
    List Fact × List AIProgressEvent :=
  let normalizedText := trimS text
  if normalizedText.data = [] then ([], [])
  else if fallbackEnabled || !hasLm then
    (fallbackParseTextToFacts timestamp normalizedText topic, [])
  else
    let chunks := (chunksOf 6000 normalizedText.data).map String.mk
    let st0 : ParseState :=
      { facts := [], seen := [],
        events := [AIProgressEvent.parseStart topic chunks.length], calls := 0 }
    let st := runChunkLoop jsonParse oracle topic timestamp chunks.length 1 chunks st0
    (st.facts,
      st.events ++ [AIProgressEvent.parseComplete topic chunks.length st.facts.length])

/-! ## `parseQuizBatch` (AIService.ts lines 532-587)

The near-JSON sanitization passes are the three `replace` calls of the
source; `JSON.parse` is again the oracle. -/

/-- `[A-Za-z0-9_]`. -/
def isWordChar (c : Char) : Bool :=
  ('A' ≤ c && c ≤ 'Z') || ('a' ≤ c && c ≤ 'z') || ('0' ≤ c && c ≤ '9') || c = '_'

theorem takeWhile_length_le (p : Char → Bool) (cs : List Char) :
    (cs.takeWhile p).length ≤ cs.length := by
  induction cs with
  | nil => simp
  | cons c rest ih =>
    by_cases h : p c
    · simp only [List.takeWhile, h]; simpa using ih
    · simp [List.takeWhile, h]

/-- One attempted match of `([{,]\s*)([A-Za-z0-9_]+)\s*:` just after the
`[{,]` char: returns the kept whitespace, the identifier to quote, and the
text after the colon. -/
def tryKeyMatch (rest : List Char) : Option (List Char × List Char × List Char) :=
  let ws := rest.takeWhile isJsWs
  let r1 := rest.dropWhile isJsWs
  let ident := r1.takeWhile isWordChar
  if ident = [] then none
  else
    let r2 := r1.dropWhile isWordChar
    match r2.dropWhile isJsWs with
    | ':' :: r4 => some (ws, ident, r4)
    | _ => none

theorem tryKeyMatch_length {rest ws ident r4 : List Char}
    (h : tryKeyMatch rest = some (ws, ident, r4)) : r4.length < rest.length := by
  unfold tryKeyMatch at h
  set r1 := rest.dropWhile isJsWs with hr1
  by_cases hid : r1.takeWhile isWordChar = []
  · simp [hid] at h
  · rcases heq : (r1.dropWhile isWordChar).dropWhile isJsWs with _ | ⟨b, r3⟩
    · simp [hid, heq] at h
    · by_cases hb : b = ':'
      · subst hb
        simp only [hid, if_neg, heq] at h
        cases h
        have h1 : r1.length ≤ rest.length := dropWhile_length_le _ _
        have h2 : r1 ≠ [] := by
          intro hnil; rw [hnil] at hid; simp [List.takeWhile] at hid
        rcases List.exists_cons_of_ne_nil h2 with ⟨a, t, ha⟩
        have hpa : isWordChar a = true := by
          by_contra hpa
          rw [ha] at hid
          simp [List.takeWhile, Bool.of_not_eq_true hpa] at hid
        have h3 : r1.dropWhile isWordChar = t.dropWhile isWordChar := by
          rw [ha]; simp [List.dropWhile, hpa]
        have h4 : (r1.dropWhile isWordChar).length ≤ t.length := by
          rw [h3]; exact dropWhile_length_le _ _
        have h5 : ((r1.dropWhile isWordChar).dropWhile isJsWs).length
            ≤ (r1.dropWhile isWordChar).length := dropWhile_length_le _ _
        have h6 : (':' :: r4).length = ((r1.dropWhile isWordChar).dropWhile isJsWs).length := by
          rw [heq]
        have h7 : t.length + 1 = r1.length := by rw [ha]; simp
        simp only [List.length_cons] at h6
        omega
      · simp [hid, heq, hb] at h

/-- `base.replace(/([{,]\s*)([A-Za-z0-9_]+)\s*:/g, '$1"$2":')`, by fuel
(every step consumes at least one char, see `tryKeyMatch_length`). -/
def sanitizeKeysGo : Nat → List Char → List Char
  | _, [] => []
  | 0, cs => cs
  | fuel + 1, c :: rest =>
    if c = '{' || c = ',' then
      match tryKeyMatch rest with
      | some (ws, ident, r4) =>
        c :: (ws ++ '"' :: (ident ++ '"' :: ':' :: sanitizeKeysGo fuel r4))
      | none => c :: sanitizeKeysGo fuel rest
    else c :: sanitizeKeysGo fuel rest

/-- The key-quoting pass at its sufficient fuel. -/
def sanitizeKeys (cs : List Char) : List Char := sanitizeKeysGo cs.length cs

/-- `value.replace(/\\/g, '\\\\').replace(/"/g, '\\"')` (the two passes
touch disjoint characters, so one simultaneous pass is the same map). -/
def escapeForJson (cs : List Char) : List Char :=
  (cs.map (fun ch =>
    if ch = '\\' then ['\\', '\\']
    else if ch = '"' then ['\\', '"']
    else [ch])).flatten

/-- `sanitizedKeys.replace(/'([^']*)'/g, ...)`: single-quoted runs become
escaped double-quoted runs. -/
def sanitizeQuotesGo : Nat → List Char → List Char
  | _, [] => []
  | 0, cs => cs
  | fuel + 1, c :: rest =>
    if c = '\'' then
      if (rest.takeWhile (fun x => !(x == '\''))).length = rest.length then
        -- no closing quote anywhere: no match at or after this position
        c :: sanitizeQuotesGo fuel rest
      else
        let inner := rest.takeWhile (fun x => !(x == '\''))
        '"' :: (escapeForJson inner ++
          '"' :: sanitizeQuotesGo fuel (rest.drop (inner.length + 1)))
    else c :: sanitizeQuotesGo fuel rest

/-- The quote-conversion pass at its sufficient fuel. -/
def sanitizeQuotes (cs : List Char) : List Char := sanitizeQuotesGo cs.length cs

/-- `sanitizedValues.replace(/,\s*([}\]])/g, '$1')`. -/
def stripTrailingCommasGo : Nat → List Char → List Char
  | _, [] => []
  | 0, cs => cs
  | fuel + 1, c :: rest =>
    if c = ',' then
      match rest.dropWhile isJsWs with
      | b :: r2 =>
        if b = '}' || b = ']' then b :: stripTrailingCommasGo fuel r2
        else c :: stripTrailingCommasGo fuel rest
      | [] => c :: stripTrailingCommasGo fuel rest
    else c :: stripTrailingCommasGo fuel rest

/-- The trailing-comma pass at its sufficient fuel. -/
def stripTrailingCommas (cs : List Char) : List Char :=
  stripTrailingCommasGo cs.length cs

/-- Property read on a parsed item. -/
def getField (item : Json) (key : String) : Option Json :=
  match item with
  | Json.obj fields => lookupField fields key
  | _ => none

/-- `typeof item === 'object' && item !== null` (arrays included). -/
def isObjectLike : Json → Bool
  | Json.obj _ => true
  | Json.arr _ => true
  | _ => false

/-- `typeof item.question === 'string' ? item.question.trim() : ''`. -/
def quizQuestionText (item : Json) : String :=
  match asStr (getField item "question") with
  | some s => trimS s
  | none => ""

/-- `Array.isArray(item.options) ? item.options.filter(nonEmptyString).map(trim) : []`. -/
def quizOptions (item : Json) : List String :=
  match getField item "options" with
  | some (Json.arr opts) =>
    opts.filterMap (fun o =>
      match o with
      | Json.str s => if trimChars s.data = [] then none else some (trimS s)
      | _ => none)
  | _ => []

/-- `numericAnswer` defaulting and the
`Math.max(0, Math.min(options.length - 1, Math.floor(...)))` clamp
(`Number.isFinite` fails only for the non-finite marker; a non-number
answer defaults to `0` before the clamp). -/
def quizAnswer (item : Json) : Int :=
  match getField item "correct_answer" with
  | some (Json.num n) => max 0 (min ((quizOptions item).length - 1) n)
  | some Json.numNonFinite => 0
  | _ => max 0 (min ((quizOptions item).length - 1) 0)

/-- The `.map` body of `parseQuizBatch`: trimmed question, filtered +
trimmed options, clamped answer. -/
def quizItemOf (item : Json) : QuizQuestion :=
  { question := quizQuestionText item
    options := quizOptions item
    correct_answer := quizAnswer item }

/-- The candidate loop of `parseQuizBatch`. -/
def tryQuizCandidates (jsonParse : String → Option Json) (expected : Nat) :
    List String → List QuizQuestion
  | [] => []
  | cand :: rest =>
    match jsonParse cand with
    | none => tryQuizCandidates jsonParse expected rest
    | some (Json.arr parsed) =>
      let questions :=
        ((parsed.filter isObjectLike).map quizItemOf).filter
          (fun q => q.question.data.length > 0 && q.options.length == 4)
      if questions.isEmpty then tryQuizCandidates jsonParse expected rest
      else if 0 < expected then questions.take expected else questions
    | some _ => tryQuizCandidates jsonParse expected rest

/-- `parseQuizBatch(raw, expected)` (AIService.ts). -/
def parseQuizBatch (jsonParse : String → Option Json) (raw : String)
    (expected : Nat) : List QuizQuestion :=
  match extractArray raw with
  | none => []
  | some m =>
    let base := trimS m
    let sanitized :=
      String.mk (stripTrailingCommas (sanitizeQuotes (sanitizeKeys base.data)))
    -- the `Set` keeps insertion order and drops the duplicate
    let candidates := if sanitized = base then [base] else [base, sanitized]
    tryQuizCandidates jsonParse expected candidates

/-- `generateQuizQuestions` (AIService.ts): one batched request; any
request failure yields zero quizzes.  `completion` is the outcome of the
single `runCompletion` call. -/
def generateQuizQuestions (jsonParse : String → Option Json)
    (completion : Except String String) (hasLm : Bool)
    (factContents : List String) : List QuizQuestion :=
  if !hasLm || factContents.isEmpty then []
  else
    let limitedFacts := factContents.take 8
    match completion with
    | Except.error _ => []
    | Except.ok response => parseQuizBatch jsonParse response limitedFacts.length

/-! ## Quiz selection (`addQuizFacts`, TextProcessor.ts lines 156-201) -/

/-- `quizInterval`. -/
def quizInterval : Nat := 8

/-- `Math.min(5, Math.floor(totalFacts / quizInterval) || (totalFacts >= 4 ? 1 : 0))`. -/
def maxQuizzesFor (totalFacts : Nat) : Nat :=
  min 5 (if totalFacts / quizInterval ≠ 0 then totalFacts / quizInterval
         else if 4 ≤ totalFacts then 1 else 0)

/-- `Math.max(1, Math.floor(totalFacts / maxQuizzes))`. -/
def quizStep (totalFacts m : Nat) : Nat := max 1 (totalFacts / m)

/-- The selection loop
`for (index = 0; index < totalFacts && selected.length < maxQuizzes; index += step)`,
by remaining selection budget. -/
def selectIndices (n step : Nat) : Nat → Nat → List Nat
  | 0, _ => []
  | Nat.succ r, i => if i < n then i :: selectIndices n step r (i + step) else []

/-- The indices selected by `addQuizFacts` for `n` facts. -/
def selectedQuizIndices (n : Nat) : List Nat :=
  selectIndices n (quizStep n (maxQuizzesFor n)) (maxQuizzesFor n) 0

/-- The quiz items generated by `addQuizFacts` for a fact list (storage
insertion and progress events do not affect the generated items and are
omitted). -/
def addQuizFactsQuizzes (jsonParse : String → Option Json)
    (completion : Except String String) (hasLm : Bool) (facts : List Fact) :
    List QuizQuestion :=
  if facts.isEmpty then []
  else
    let totalFacts := facts.length
    let m := maxQuizzesFor totalFacts
    if m = 0 then []
    else
      let selectedFacts := (selectedQuizIndices totalFacts).filterMap
        (fun i => facts.get? i)
      generateQuizQuestions jsonParse completion hasLm
        (selectedFacts.map (fun f => f.content))

/-! ## `initialize` (AIService.ts lines 231-296)

The single-flight `initialized`/`initializing` flags are concurrency state
and are not part of the outcome modelled here; `tryCandidate` is
`prepareModelInstance` + `init` for one candidate (`.error` = it threw). -/

/-- Outcome of a completed initialization. -/
structure InitOutcome where
  degraded : Bool
  session : Option String
deriving DecidableEq, Repr

/-- The candidate loop, threading `lastError`. -/
def initializeLoop (tryCandidate : String → Except String String) :
    List String → Option String → Except String InitOutcome
  | [], lastError =>
    Except.error (lastError.getD "Failed to initialize Cactus model")
  | c :: rest, lastError =>
    match tryCandidate c with
    | Except.ok _ => Except.ok { degraded := false, session := some c }
    | Except.error e => initializeLoop tryCandidate rest (some e)

/-- `initialize`: capability absent → degraded success; otherwise first
working candidate wins; all candidates failing → the error is thrown to
the caller. -/
def initializeAI (cactusPresent : Bool) (candidates : List String)
    (tryCandidate : String → Except String String) :
    Except String InitOutcome :=
  if !cactusPresent then Except.ok { degraded := true, session := none }
  else initializeLoop tryCandidate candidates none

/-! ## `emitProgress` (AIService.ts lines 77-85)

```
emitProgress(event) {
  this.progressListeners.forEach((listener) => {
    try { listener(event); }
    catch (error) { console.error('[AIService] Progress listener failed:', error); }
  });
}
```
A listener is a function that either returns or throws
(`AIProgressEvent → Except String Unit`).  The per-listener `try`/`catch`
keeps the `forEach` alive, so the emission as a whole always succeeds; the
returned list records each listener's own outcome (`ok` = returned,
`error` = threw and the error was logged). -/

def emitProgress (listeners : List (AIProgressEvent → Except String Unit))
    (event : AIProgressEvent) : Except String (List (Except String Unit)) :=
  Except.ok (listeners.map (fun listener => listener event))

/-! ## Generic helper lemmas -/

theorem trimChars_length_le (cs : List Char) :
    (trimChars cs).length ≤ cs.length := by
  have h1 : (trimRight (trimLeft cs)).length ≤ (trimLeft cs).length := by
    simpa [trimRight] using dropWhile_length_le isJsWs (trimLeft cs).reverse
  have h2 : (trimLeft cs).length ≤ cs.length := dropWhile_length_le isJsWs cs
  exact Nat.le_trans h1 h2

theorem trimChars_head_not_ws (cs : List Char) :
    trimChars cs = [] ∨
      ∃ c rest, trimChars cs = c :: rest ∧ isJsWs c = false := by
  rcases heq : trimChars cs with _ | ⟨c, r⟩
  · exact Or.inl rfl
  · right
    refine ⟨c, r, rfl, ?_⟩
    by_contra hws
    have hws : isJsWs c = true := Bool.of_not_eq_false hws
    have hfix : trimLeft (trimChars cs) = trimChars cs := trimLeft_trimChars cs
    rw [heq] at hfix
    have : (trimLeft (c :: r)).length ≤ r.length := by
      simpa [trimLeft, List.dropWhile, hws] using dropWhile_length_le isJsWs r
    rw [hfix] at this
    simp at this

/-- Trimmed non-empty text, truncated to 200 chars, trims back to between
1 and 200 chars (the shared argument for model-mode and fallback facts). -/
theorem trimmed_take200_ok (cs : List Char) (h : trimChars cs ≠ []) :
    1 ≤ (trimChars ((trimChars cs).take 200)).length ∧
      (trimChars ((trimChars cs).take 200)).length ≤ 200 := by
  rcases trimChars_head_not_ws cs with hnil | ⟨c, rest, heq, hc⟩
  · exact absurd hnil h
  constructor
  · have hmem : c ∈ (trimChars cs).take 200 := by
      rw [heq]
      have : (200 : Nat) = 199 + 1 := rfl
      rw [this, List.take_succ_cons]
      exact List.mem_cons_self c _
    have hne := trimChars_ne_nil ((trimChars cs).take 200) c hmem hc
    rcases hres : trimChars ((trimChars cs).take 200) with _ | _
    · exact absurd hres hne
    · simp
  · have h1 : (trimChars ((trimChars cs).take 200)).length
        ≤ ((trimChars cs).take 200).length := trimChars_length_le _
    have h2 : ((trimChars cs).take 200).length ≤ 200 := by
      have := List.length_take_le 200 (trimChars cs)
      omega
    omega

/-! ## Claim C8 -/

theorem initializeLoop_error (tryCandidate : String → Except String String)
    (candidates : List String)
    (hfail : ∀ c ∈ candidates, ∃ e, tryCandidate c = Except.error e) :
    ∀ lastError, ∃ msg,
      initializeLoop tryCandidate candidates lastError = Except.error msg := by
  induction candidates with
  | nil => intro lastError; exact ⟨_, rfl⟩
  | cons c rest ih =>
    intro lastError
    obtain ⟨e, he⟩ := hfail c (by simp)
    have := ih (fun x hx => hfail x (by simp [hx]))
    obtain ⟨msg, hmsg⟩ := this (some e)
    exact ⟨msg, by simp [initializeLoop, he, hmsg]⟩

/-- C8: if the completion capability is present but every model candidate
fails to reach a usable session, `initialize()` raises an error to its
caller instead of completing successfully in a degraded state. -/
theorem c8_init_all_candidates_fail (candidates : List String)
    (tryCandidate : String → Except String String)
    (hfail : ∀ c ∈ candidates, ∃ e, tryCandidate c = Except.error e) :
    ∃ msg, initializeAI true candidates tryCandidate = Except.error msg := by
  have := initializeLoop_error tryCandidate candidates hfail none
  simpa [initializeAI] using this

/-- C8 witness: two candidates, both failing, make `initialize` throw. -/
theorem c8_init_all_candidates_fail_witness :
    ∃ msg, initializeAI true ["qwen3-0_5b", "qwen3-fallback"]
      (fun _ => Except.error "init failed") = Except.error msg :=
  c8_init_all_candidates_fail ["qwen3-0_5b", "qwen3-fallback"]
    (fun _ => Except.error "init failed")
    (fun c _ => ⟨"init failed", rfl⟩)

/-! ## Claim C9 -/

/-- C9 counterexample: the reasoning-strip transform is not idempotent.
Removing the paired/bare markers can splice the surrounding characters
into a new marker: stripping `<th<think>ink>` once yields `<think>`,
stripping it again yields the empty string. -/
theorem c9_strip_not_idempotent_counterexample :
    stripThinkingBlocks (stripThinkingBlocks "<th<think>ink>")
      ≠ stripThinkingBlocks "<th<think>ink>" ∧
    stripThinkingBlocks "<th<think>ink>" = "<think>" := by
  constructor
  · decide
  · decide

/-- C9 (amended): the strip transform is idempotent on every input whose
once-stripped form contains no residual reasoning marker; in general a
second strip can remove markers reassembled by the first one. -/
theorem c9_strip_idempotent_when_clean (s : String)
    (h : containsThinkTag (stripThinkingBlocks s).data = false) :
    stripThinkingBlocks (stripThinkingBlocks s) = stripThinkingBlocks s := by
  rcases hdat : (stripThinkingBlocks s).data with _ | ⟨c, r⟩
  · rw [stripThinkingBlocks, if_pos hdat]
  · have hne : (stripThinkingBlocks s).data ≠ [] := by rw [hdat]; simp
    rw [stripThinkingBlocks, if_neg hne]
    rw [removeThinkPairs_of_no_tag _ h, removeThinkTags_of_no_tag _ h]
    have hsne : s.data ≠ [] := by
      intro hs
      have : stripThinkingBlocks s = s := by rw [stripThinkingBlocks, if_pos hs]
      rw [this] at hdat
      rw [hs] at hdat
      exact absurd hdat.symm (by simp)
    have hform : (stripThinkingBlocks s).data
        = trimChars (removeThinkTags (removeThinkPairs s.data)) := by
      rw [stripThinkingBlocks, if_neg hsne]
    rw [hform, trimChars_idem, ← hform]

/-- C9 witness: ordinary text around one reasoning block strips to a
marker-free string, on which the strip is a no-op. -/
theorem c9_strip_idempotent_when_clean_witness :
    containsThinkTag (stripThinkingBlocks "a <think>hidden</think> b").data = false ∧
    stripThinkingBlocks (stripThinkingBlocks "a <think>hidden</think> b")
      = stripThinkingBlocks "a <think>hidden</think> b" :=
  ⟨by decide, c9_strip_idempotent_when_clean "a <think>hidden</think> b" (by decide)⟩

/-! ## Claim C10 -/

/-- C10: emitting a progress event never fails, and every subscribed
listener receives the event: the per-listener `try`/`catch` isolates each
invocation, so outcome `i` is listener `i` applied to the event,
independent of any other listener throwing. -/
theorem c10_emit_progress_isolated
    (listeners : List (AIProgressEvent → Except String Unit))
    (event : AIProgressEvent) :
    ∃ outcomes, emitProgress listeners event = Except.ok outcomes ∧
      outcomes.length = listeners.length ∧
      ∀ i (h1 : i < outcomes.length) (h2 : i < listeners.length),
        outcomes.get ⟨i, h1⟩ = (listeners.get ⟨i, h2⟩) event := by
  refine ⟨listeners.map (fun listener => listener event), ?_, ?_, ?_⟩
  · rfl
  · simp
  · intro i h1 h2
    simp

/-- C10 witness: with a throwing first listener, emission still succeeds
and the second listener still receives the event. -/
theorem c10_emit_progress_isolated_witness :
    ∃ outcomes,
      emitProgress
        [fun _ => Except.error "listener blew up", fun _ => Except.ok ()]
        (AIProgressEvent.parseStart "animals" 3) = Except.ok outcomes ∧
      outcomes.length = 2 := by
  obtain ⟨outcomes, hok, hlen, _⟩ := c10_emit_progress_isolated
    [fun _ => Except.error "listener blew up", fun _ => Except.ok ()]
    (AIProgressEvent.parseStart "animals" 3)
  exact ⟨outcomes, hok, by simpa using hlen⟩

/-! ## Claim C5 -/

theorem quizOptions_ne_nil (item : Json) :
    ∀ o ∈ quizOptions item, o.data ≠ [] := by
  intro o ho
  unfold quizOptions at ho
  rcases hf : getField item "options" with _ | j
  · rw [hf] at ho; simp at ho
  · rcases j with s | n | _ | b | _ | opts | fields
    all_goals rw [hf] at ho
    all_goals try simp at ho
    rcases ho with ⟨a, _, ha⟩
    rcases a with s | _ | _ | _ | _ | _ | _
    all_goals simp at ha
    rcases ha with ⟨hne, rfl⟩
    simpa [trimS] using hne

theorem quizAnswer_clamped (item : Json)
    (h4 : (quizOptions item).length = 4) :
    0 ≤ quizAnswer item ∧ quizAnswer item ≤ 3 := by
  unfold quizAnswer
  rw [h4]
  rcases hf : getField item "correct_answer" with _ | j
  · constructor <;> simp <;> omega
  · rcases j with s | n | _ | b | _ | opts | fields
    all_goals constructor <;> simp <;> omega

theorem tryQuizCandidates_shape (jsonParse : String → Option Json)
    (expected : Nat) (cands : List String) (q : QuizQuestion)
    (hq : q ∈ tryQuizCandidates jsonParse expected cands) :
    q.question.data ≠ [] ∧ q.options.length = 4 ∧
      ∃ item, q = quizItemOf item := by
  induction cands with
  | nil => simp [tryQuizCandidates] at hq
  | cons cand rest ih =>
    rw [tryQuizCandidates] at hq
    rcases hp : jsonParse cand with _ | j
    · rw [hp] at hq; exact ih hq
    · rcases j with s | n | _ | b | _ | parsed | fields
      all_goals rw [hp] at hq
      all_goals try exact ih hq
      simp only at hq
      by_cases hempty :
          (((parsed.filter isObjectLike).map quizItemOf).filter
            (fun q => q.question.data.length > 0 && q.options.length == 4)).isEmpty
      · rw [if_pos hempty] at hq; exact ih hq
      · rw [if_neg hempty] at hq
        have hmem : q ∈ ((parsed.filter isObjectLike).map quizItemOf).filter
            (fun q => q.question.data.length > 0 && q.options.length == 4) := by
          by_cases hex : 0 < expected
          · rw [if_pos hex] at hq
            exact List.take_subset _ _ hq
          · rw [if_neg hex] at hq; exact hq
        have hfil := List.of_mem_filter hmem
        have hmap := List.mem_of_mem_filter hmem
        rcases List.mem_map.mp hmap with ⟨item, _, hitem⟩
        simp only [Bool.and_eq_true, decide_eq_true_eq, beq_iff_eq] at hfil
        refine ⟨?_, hfil.2, item, hitem.symm⟩
        intro hnil
        have := hfil.1
        rw [hnil] at this
        simp at this

/-- C5: every `QuizQuestion` accepted by the quiz-batch parser has a
non-empty question, exactly 4 non-empty options, and a correct-answer
index clamped into `[0, 3]` (invalid items are dropped: every output item
is one of the validated parsed items, never a placeholder). -/
theorem c5_quiz_batch_shape (jsonParse : String → Option Json)
    (raw : String) (expected : Nat) (q : QuizQuestion)
    (hq : q ∈ parseQuizBatch jsonParse raw expected) :
    q.question.data ≠ [] ∧ q.options.length = 4 ∧
      (∀ o ∈ q.options, o.data ≠ []) ∧
      0 ≤ q.correct_answer ∧ q.correct_answer ≤ 3 := by
  unfold parseQuizBatch at hq
  rcases hm : extractArray raw with _ | m
  · rw [hm] at hq; simp at hq
  · rw [hm] at hq
    simp only at hq
    have hshape := tryQuizCandidates_shape jsonParse expected _ q hq
    obtain ⟨hqne, h4, item, hitem⟩ := hshape
    subst hitem
    refine ⟨hqne, h4, ?_, ?_⟩
    · intro o ho
      exact quizOptions_ne_nil item o ho
    · exact quizAnswer_clamped item h4

/-- C5 witness: a parsed batch with one well-formed item and one malformed
item keeps only the validated item (answer 7 clamped to 3), whose shape
the theorem certifies. -/
theorem c5_quiz_batch_shape_witness :
    (parseQuizBatch
        (fun _ => some (Json.arr
          [Json.obj
            [("question", Json.str "What color is the sky?"),
             ("options", Json.arr
               [Json.str "Blue", Json.str "Green", Json.str "Red",
                Json.str "Gray"]),
             ("correct_answer", Json.num 7)],
           Json.obj [("question", Json.str "No options")]]))
        "[payload]" 2).length = 1 ∧
    ((⟨"What color is the sky?", ["Blue", "Green", "Red", "Gray"], 3⟩ :
        QuizQuestion).question.data ≠ [] ∧
      (⟨"What color is the sky?", ["Blue", "Green", "Red", "Gray"], 3⟩ :
        QuizQuestion).options.length = 4 ∧
      (∀ o ∈ (⟨"What color is the sky?", ["Blue", "Green", "Red", "Gray"], 3⟩ :
        QuizQuestion).options, o.data ≠ []) ∧
      0 ≤ (⟨"What color is the sky?", ["Blue", "Green", "Red", "Gray"], 3⟩ :
        QuizQuestion).correct_answer ∧
      (⟨"What color is the sky?", ["Blue", "Green", "Red", "Gray"], 3⟩ :
        QuizQuestion).correct_answer ≤ 3) := by
  refine ⟨by decide, ?_⟩
  exact c5_quiz_batch_shape
    (fun _ => some (Json.arr
      [Json.obj
        [("question", Json.str "What color is the sky?"),
         ("options", Json.arr
           [Json.str "Blue", Json.str "Green", Json.str "Red",
            Json.str "Gray"]),
         ("correct_answer", Json.num 7)],
       Json.obj [("question", Json.str "No options")]]))
    "[payload]" 2
    (⟨"What color is the sky?", ["Blue", "Green", "Red", "Gray"], 3⟩ :
      QuizQuestion) (by decide)

/-! ## Claim C4 -/

theorem tryQuizCandidates_length_le (jsonParse : String → Option Json)
    (expected : Nat) (hex : 0 < expected) (cands : List String) :
    (tryQuizCandidates jsonParse expected cands).length ≤ expected := by
  induction cands with
  | nil => simp [tryQuizCandidates]
  | cons cand rest ih =>
    rw [tryQuizCandidates]
    rcases jsonParse cand with _ | j
    · exact ih
    · rcases j with s | n | _ | b | _ | parsed | fields
      all_goals try exact ih
      simp only
      split
      · exact ih
      · exact List.length_take_le _ _

theorem parseQuizBatch_length_le (jsonParse : String → Option Json)
    (raw : String) (expected : Nat) (hex : 0 < expected) :
    (parseQuizBatch jsonParse raw expected).length ≤ expected := by
  unfold parseQuizBatch
  rcases extractArray raw with _ | m
  · simp
  · exact tryQuizCandidates_length_le jsonParse expected hex _

theorem generateQuizQuestions_length_le (jsonParse : String → Option Json)
    (completion : Except String String) (hasLm : Bool)
    (factContents : List String) :
    (generateQuizQuestions jsonParse completion hasLm factContents).length
      ≤ factContents.length := by
  unfold generateQuizQuestions
  by_cases hempty : !hasLm || factContents.isEmpty
  · simp [hempty]
  · rw [if_neg (by simp_all)]
    rcases completion with e | response
    · simp
    · simp only
      have hne : factContents ≠ [] := by
        simp only [Bool.or_eq_true, Bool.not_eq_eq_eq_not] at hempty
        intro hnil
        exact hempty (Or.inr (by simp [hnil]))
      have hpos : 0 < (factContents.take 8).length := by
        rcases factContents with _ | ⟨a, t⟩
        · exact absurd rfl hne
        · simp
      have hle : (factContents.take 8).length ≤ factContents.length := by
        rw [List.length_take]; omega
      exact Nat.le_trans
        (parseQuizBatch_length_le jsonParse response _ hpos) hle

theorem selectIndices_length_le (n step : Nat) :
    ∀ r i, (selectIndices n step r i).length ≤ r := by
  intro r
  induction r with
  | zero => intro i; simp [selectIndices]
  | succ r ih =>
    intro i
    simp only [selectIndices]
    split
    · simpa using ih (i + step)
    · simp

/-- The source `floor(n/8) || (n ≥ 4 ? 1 : 0)` equals the spec's
`max(floor(n/8), n ≥ 4 ? 1 : 0)`. -/
theorem maxQuizzesFor_eq_spec (n : Nat) :
    maxQuizzesFor n = min 5 (max (n / 8) (if 4 ≤ n then 1 else 0)) := by
  unfold maxQuizzesFor quizInterval
  by_cases h : n / 8 = 0
  · simp [h]
  · rw [if_pos h]
    have h1 : 1 ≤ n / 8 := Nat.one_le_iff_ne_zero.mpr h
    have : max (n / 8) (if 4 ≤ n then 1 else 0) = n / 8 := by
      apply Nat.max_eq_left
      split <;> omega
    rw [this]

theorem selectIndices_getElem (n step : Nat) :
    ∀ r i k (hk : k < (selectIndices n step r i).length),
      (selectIndices n step r i).get ⟨k, hk⟩ = i + k * step := by
  intro r
  induction r with
  | zero => intro i k hk; simp [selectIndices] at hk
  | succ r ih =>
    intro i k hk
    by_cases hin : i < n
    · have heq : selectIndices n step (Nat.succ r) i
          = i :: selectIndices n step r (i + step) := by
        simp [selectIndices, hin]
      rw [List.get_of_eq heq]
      rcases k with _ | k
      · simp
      · have hk2 : k < (selectIndices n step r (i + step)).length := by
          have := hk
          rw [heq] at this
          simpa using this
        simp only [Fin.cast, List.get_cons_succ]
        rw [ih (i + step) k hk2]
        ring
    · simp [selectIndices, hin] at hk

theorem selectIndices_sorted (n step : Nat) (hstep : 0 < step) :
    ∀ r i, List.Pairwise (· < ·) (selectIndices n step r i) := by
  intro r
  induction r with
  | zero => intro i; simp [selectIndices]
  | succ r ih =>
    intro i
    rw [selectIndices]
    split
    · refine List.pairwise_cons.mpr ⟨?_, ih (i + step)⟩
      intro j hj
      rcases List.mem_iff_get.mp hj with ⟨⟨k, hk⟩, hkj⟩
      rw [selectIndices_getElem n step r (i + step) k hk] at hkj
      omega
    · simp

/-- C4: (1) for any completion behavior, `addQuizFacts` generates at most
`min(5, max(floor(N/8), N ≥ 4 ? 1 : 0))` quiz items for `N` facts;
(2) the selected source-fact indices are strictly ascending (hence without
duplicates); (3) they follow stride `max(1, floor(N/maxQuizzes))` starting
at index 0 (`index k` is `k` strides); (4) for `N = 56` the selected
indices are exactly `{0, 11, 22, 33, 44}`. -/
theorem c4_quiz_selection :
    (∀ (jsonParse : String → Option Json) (completion : Except String String)
        (hasLm : Bool) (facts : List Fact),
      (addQuizFactsQuizzes jsonParse completion hasLm facts).length
        ≤ min 5 (max (facts.length / 8) (if 4 ≤ facts.length then 1 else 0))) ∧
    (∀ n, List.Pairwise (· < ·) (selectedQuizIndices n)) ∧
    (∀ n k (hk : k < (selectedQuizIndices n).length),
      (selectedQuizIndices n).get ⟨k, hk⟩
        = k * quizStep n (maxQuizzesFor n)) ∧
    selectedQuizIndices 56 = [0, 11, 22, 33, 44] := by
  refine ⟨?_, ?_, ?_, by decide⟩
  · intro jsonParse completion hasLm facts
    rw [← maxQuizzesFor_eq_spec]
    unfold addQuizFactsQuizzes
    by_cases hempty : facts.isEmpty
    · simp [hempty]
    · rw [if_neg hempty]
      by_cases hm : maxQuizzesFor facts.length = 0
      · simp [hm]
      · rw [if_neg hm]
        have h1 := generateQuizQuestions_length_le jsonParse completion hasLm
          (((selectedQuizIndices facts.length).filterMap
            (fun i => facts.get? i)).map (fun f => f.content))
        have h2 : (((selectedQuizIndices facts.length).filterMap
            (fun i => facts.get? i)).map (fun f => f.content)).length
            ≤ (selectedQuizIndices facts.length).length := by
          rw [List.length_map]
          exact List.length_filterMap_le _ _
        have h3 : (selectedQuizIndices facts.length).length
            ≤ maxQuizzesFor facts.length :=
          selectIndices_length_le _ _ _ _
        exact Nat.le_trans h1 (Nat.le_trans h2 h3)
  · intro n
    exact selectIndices_sorted n _ (by simp [quizStep]) _ _
  · intro n k hk
    have := selectIndices_getElem n (quizStep n (maxQuizzesFor n))
      (maxQuizzesFor n) 0 k hk
    simpa [selectedQuizIndices] using this

/-- C4 witness: the bound instantiated on 56 concrete facts (a failing
batch request generates zero quizzes, within the bound of 5), together
with the concrete index selection from the theorem. -/
theorem c4_quiz_selection_witness :
    (addQuizFactsQuizzes (fun _ => none) (Except.error "request failed") true
        ((List.range 56).map (fun i =>
          { id := i, content := "fact", topic := "animals",
            source := FactSource.cactus, created_at := "t0" }))).length
      ≤ min 5 (max (((List.range 56).map (fun i =>
          ({ id := i, content := "fact", topic := "animals",
             source := FactSource.cactus, created_at := "t0" } : Fact))).length / 8)
          (if 4 ≤ ((List.range 56).map (fun i =>
            ({ id := i, content := "fact", topic := "animals",
               source := FactSource.cactus, created_at := "t0" } : Fact))).length
           then 1 else 0)) ∧
    selectedQuizIndices 56 = [0, 11, 22, 33, 44] :=
  ⟨c4_quiz_selection.1 (fun _ => none) (Except.error "request failed") true _,
   c4_quiz_selection.2.2.2⟩

/-! ## Structure lemmas for the extraction pipeline -/

/-- The shape of contents accepted into facts: a 200-char truncation of a
trimmed, non-empty raw candidate. -/
def FactContentShape (f : Fact) : Prop :=
  ∃ raw : String, trimChars raw.data ≠ [] ∧ f.content = takeS 200 (trimS raw)

/-- `collectFactsFromContents` appends accepted facts, grows the seen set,
and reports exactly the number appended; every appended fact carries the
given topic/source/timestamp and a trimmed, truncated content. -/
theorem collectFacts_spec (topic ts : String) (src : FactSource) (maxF : Nat) :
    ∀ (contents : List String) (allFacts : List Fact) (seen : List String),
      ∃ newFacts newSeen,
        collectFactsFromContents topic ts src maxF contents allFacts seen
          = (allFacts ++ newFacts, newSeen, newFacts.length) ∧
        (∀ x ∈ seen, x ∈ newSeen) ∧
        (∀ f ∈ newFacts, f.topic = topic ∧ f.source = src ∧
          f.created_at = ts ∧ FactContentShape f) := by
  intro contents
  induction contents with
  | nil =>
    intro allFacts seen
    exact ⟨[], seen, by simp [collectFactsFromContents], fun x hx => hx,
      by intro f hf; cases hf⟩
  | cons rawContent rest ih =>
    intro allFacts seen
    rw [collectFactsFromContents]
    by_cases hcap : maxF ≤ allFacts.length
    · rw [if_pos hcap]
      exact ⟨[], seen, by simp, fun x hx => hx, by intro f hf; cases hf⟩
    · rw [if_neg hcap]
      by_cases hempty : (trimS rawContent).data = []
      · rw [if_pos hempty]
        exact ih allFacts seen
      · rw [if_neg hempty]
        by_cases hseen : lowerS (takeS 200 (trimS rawContent)) ∈ seen
        · rw [if_pos hseen]
          exact ih allFacts seen
        · rw [if_neg hseen]
          obtain ⟨newFacts, newSeen, heq, hsub, hprops⟩ :=
            ih (allFacts ++
                [(⟨0, takeS 200 (trimS rawContent), topic, src, ts⟩ : Fact)])
              (lowerS (takeS 200 (trimS rawContent)) :: seen)
          refine ⟨(⟨0, takeS 200 (trimS rawContent), topic, src, ts⟩ : Fact)
              :: newFacts, newSeen, ?_, ?_, ?_⟩
          · simp only [heq]
            simp
          · intro x hx
            exact hsub x (by simp [hx])
          · intro f hf
            rcases List.mem_cons.mp hf with rfl | hf
            · exact ⟨rfl, rfl, rfl, rawContent, hempty, rfl⟩
            · exact hprops f hf

/-- `collectFactsFromContents` preserves the dedup invariant: every fact's
lower-cased content is registered in `seen`, and those normalized contents
are pairwise distinct. -/
theorem collectFacts_dedup (topic ts : String) (src : FactSource) (maxF : Nat) :
    ∀ (contents : List String) (allFacts : List Fact) (seen : List String),
      (∀ f ∈ allFacts, lowerS f.content ∈ seen) →
      (allFacts.map (fun f => lowerS f.content)).Nodup →
      (∀ f ∈ (collectFactsFromContents topic ts src maxF contents allFacts seen).1,
          lowerS f.content
            ∈ (collectFactsFromContents topic ts src maxF contents allFacts seen).2.1) ∧
      ((collectFactsFromContents topic ts src maxF contents allFacts seen).1.map
          (fun f => lowerS f.content)).Nodup := by
  intro contents
  induction contents with
  | nil =>
    intro allFacts seen hseen hnodup
    simpa [collectFactsFromContents] using ⟨hseen, hnodup⟩
  | cons rawContent rest ih =>
    intro allFacts seen hseen hnodup
    rw [collectFactsFromContents]
    by_cases hcap : maxF ≤ allFacts.length
    · rw [if_pos hcap]; exact ⟨hseen, hnodup⟩
    · rw [if_neg hcap]
      by_cases hempty : (trimS rawContent).data = []
      · rw [if_pos hempty]; exact ih allFacts seen hseen hnodup
      · rw [if_neg hempty]
        by_cases hdup : lowerS (takeS 200 (trimS rawContent)) ∈ seen
        · rw [if_pos hdup]; exact ih allFacts seen hseen hnodup
        · rw [if_neg hdup]
          have hseen2 : ∀ f ∈ allFacts ++
              [(⟨0, takeS 200 (trimS rawContent), topic, src, ts⟩ : Fact)],
              lowerS f.content ∈ lowerS (takeS 200 (trimS rawContent)) :: seen := by
            intro f hf
            rcases List.mem_append.mp hf with hf | hf
            · exact List.mem_cons_of_mem _ (hseen f hf)
            · rcases List.mem_singleton.mp hf with rfl
              exact List.mem_cons_self _ _
          have hnodup2 : ((allFacts ++
              [(⟨0, takeS 200 (trimS rawContent), topic, src, ts⟩ : Fact)]).map
                (fun f => lowerS f.content)).Nodup := by
            rw [List.map_append]
            rw [List.nodup_append]
            refine ⟨hnodup, by simp, ?_⟩
            intro x hx
            simp only [List.map_cons, List.map_nil, List.mem_singleton]
            intro hx2
            rcases List.mem_map.mp hx with ⟨f, hf, rfl⟩
            exact hdup (hx2 ▸ hseen f hf)
          have := ih _ _ hseen2 hnodup2
          exact this

/-- One chunk iteration, characterized: a failed completion call emits only
the `parse-chunk-start` event and leaves facts and seen untouched
(`continue`); a successful call emits `parse-chunk-start` and
`parse-chunk-complete` and updates facts/seen through one
`collectFactsFromContents` call on the run state. -/
theorem processChunk_state (jp : String → Option Json)
    (oracle : Nat → Except String String) (topic ts : String)
    (total idx : Nat) (chunk : String) (st : ParseState) :
    (∃ e, oracle st.calls = Except.error e ∧
      processChunk jp oracle topic ts total idx chunk st
        = { st with
            events := st.events ++ [AIProgressEvent.parseChunkStart topic idx total],
            calls := st.calls + 1 }) ∨
    (∃ contents src calls2,
      processChunk jp oracle topic ts total idx chunk st
        = { facts := (collectFactsFromContents topic ts src MAX_FACTS contents
              st.facts st.seen).1,
            seen := (collectFactsFromContents topic ts src MAX_FACTS contents
              st.facts st.seen).2.1,
            events := st.events ++
              [AIProgressEvent.parseChunkStart topic idx total,
               AIProgressEvent.parseChunkComplete topic idx total
                 (collectFactsFromContents topic ts src MAX_FACTS contents
                   st.facts st.seen).2.2],
            calls := calls2 }) := by
  rcases ho : oracle st.calls with e | raw
  · left
    exact ⟨e, rfl, by simp only [processChunk, runCompletion, ho]⟩
  · right
    simp only [processChunk, runCompletion, ho]
    by_cases hp : (parseFactsJson jp (stripThinkingBlocks raw)).isEmpty
    · rw [if_pos hp]
      by_cases hr : (attemptJsonRecovery jp oracle (st.calls + 1)
          (stripThinkingBlocks raw) true).1.isEmpty
      · rw [if_pos hr]
        have hp2 : (parseFactsJson jp (stripThinkingBlocks raw)).isEmpty = true := hp
        rw [if_pos hp2]
        exact ⟨splitTextIntoSentences chunk, FactSource.fallback,
          (attemptJsonRecovery jp oracle (st.calls + 1)
            (stripThinkingBlocks raw) true).2, by simp⟩
      · rw [if_neg hr]
        rw [if_neg hr]
        exact ⟨(attemptJsonRecovery jp oracle (st.calls + 1)
          (stripThinkingBlocks raw) true).1, FactSource.cactus,
          (attemptJsonRecovery jp oracle (st.calls + 1)
            (stripThinkingBlocks raw) true).2, by simp⟩
    · rw [if_neg hp]
      rw [if_neg hp]
      exact ⟨parseFactsJson jp (stripThinkingBlocks raw), FactSource.cactus,
        st.calls + 1, by simp⟩

/-- The run-scoped dedup invariant: every collected fact's normalized
content is registered in the seen set, and the normalized contents are
pairwise distinct. -/
def ParseDedupInv (st : ParseState) : Prop :=
  (∀ f ∈ st.facts, lowerS f.content ∈ st.seen) ∧
  (st.facts.map (fun f => lowerS f.content)).Nodup

theorem processChunk_dedup (jp : String → Option Json)
    (oracle : Nat → Except String String) (topic ts : String)
    (total idx : Nat) (chunk : String) (st : ParseState)
    (h : ParseDedupInv st) :
    ParseDedupInv (processChunk jp oracle topic ts total idx chunk st) := by
  rcases processChunk_state jp oracle topic ts total idx chunk st with
    ⟨e, _, heq⟩ | ⟨contents, src, calls2, heq⟩
  · rw [heq]; exact h
  · rw [heq]
    have := collectFacts_dedup topic ts src MAX_FACTS contents st.facts st.seen
      h.1 h.2
    exact ⟨this.1, this.2⟩

theorem processChunk_facts (jp : String → Option Json)
    (oracle : Nat → Except String String) (topic ts : String)
    (total idx : Nat) (chunk : String) (st : ParseState) :
    ∃ new, (processChunk jp oracle topic ts total idx chunk st).facts
        = st.facts ++ new ∧
      ∀ f ∈ new, FactContentShape f := by
  rcases processChunk_state jp oracle topic ts total idx chunk st with
    ⟨e, _, heq⟩ | ⟨contents, src, calls2, heq⟩
  · exact ⟨[], by simp [heq], by intro f hf; cases hf⟩
  · obtain ⟨newFacts, newSeen, hc, _, hprops⟩ :=
      collectFacts_spec topic ts src MAX_FACTS contents st.facts st.seen
    refine ⟨newFacts, ?_, fun f hf => (hprops f hf).2.2.2⟩
    rw [heq]
    simp only
    rw [hc]

theorem runChunkLoop_facts (jp : String → Option Json)
    (oracle : Nat → Except String String) (topic ts : String) (total : Nat) :
    ∀ (chunks : List String) (idx : Nat) (st : ParseState),
      ∃ new, (runChunkLoop jp oracle topic ts total idx chunks st).facts
          = st.facts ++ new ∧
        ∀ f ∈ new, FactContentShape f := by
  intro chunks
  induction chunks with
  | nil =>
    intro idx st
    exact ⟨[], by simp [runChunkLoop], by intro f hf; cases hf⟩
  | cons chunk rest ih =>
    intro idx st
    rw [runChunkLoop]
    by_cases hcap : MAX_FACTS ≤ st.facts.length
    · rw [if_pos hcap]
      exact ⟨[], by simp, by intro f hf; cases hf⟩
    · rw [if_neg hcap]
      obtain ⟨n1, h1, p1⟩ := processChunk_facts jp oracle topic ts total idx chunk st
      obtain ⟨n2, h2, p2⟩ := ih (idx + 1)
        (processChunk jp oracle topic ts total idx chunk st)
      refine ⟨n1 ++ n2, ?_, ?_⟩
      · rw [h2, h1, List.append_assoc]
      · intro f hf
        rcases List.mem_append.mp hf with hf | hf
        · exact p1 f hf
        · exact p2 f hf

theorem runChunkLoop_dedup (jp : String → Option Json)
    (oracle : Nat → Except String String) (topic ts : String) (total : Nat) :
    ∀ (chunks : List String) (idx : Nat) (st : ParseState),
      ParseDedupInv st →
      ParseDedupInv (runChunkLoop jp oracle topic ts total idx chunks st) := by
  intro chunks
  induction chunks with
  | nil =>
    intro idx st h
    simpa [runChunkLoop] using h
  | cons chunk rest ih =>
    intro idx st h
    rw [runChunkLoop]
    by_cases hcap : MAX_FACTS ≤ st.facts.length
    · rw [if_pos hcap]; exact h
    · rw [if_neg hcap]
      exact ih (idx + 1) _
        (processChunk_dedup jp oracle topic ts total idx chunk st h)

theorem runChunkLoop_no_parse_error (jp : String → Option Json)
    (oracle : Nat → Except String String) (topic ts : String) (total : Nat) :
    ∀ (chunks : List String) (idx : Nat) (st : ParseState),
      ((runChunkLoop jp oracle topic ts total idx chunks st).events.filter
          isParseError).length
        = (st.events.filter isParseError).length := by
  intro chunks
  induction chunks with
  | nil => intro idx st; simp [runChunkLoop]
  | cons chunk rest ih =>
    intro idx st
    rw [runChunkLoop]
    by_cases hcap : MAX_FACTS ≤ st.facts.length
    · rw [if_pos hcap]
    · rw [if_neg hcap]
      rw [ih (idx + 1) (processChunk jp oracle topic ts total idx chunk st)]
      rcases processChunk_state jp oracle topic ts total idx chunk st with
        ⟨e, _, heq⟩ | ⟨contents, src, calls2, heq⟩
      · rw [heq]
        simp [isParseError]
      · rw [heq]
        simp [isParseError]

theorem runChunkLoop_event_counts (jp : String → Option Json)
    (oracle : Nat → Except String String) (topic ts : String) (total : Nat)
    (hok : ∀ n, ∃ r, oracle n = Except.ok r) :
    ∀ (chunks : List String) (idx : Nat) (st : ParseState),
      (runChunkLoop jp oracle topic ts total idx chunks st).facts.length
          < MAX_FACTS →
      ((runChunkLoop jp oracle topic ts total idx chunks st).events.filter
            isChunkStart).length
          = (st.events.filter isChunkStart).length + chunks.length ∧
      ((runChunkLoop jp oracle topic ts total idx chunks st).events.filter
            isChunkComplete).length
          = (st.events.filter isChunkComplete).length + chunks.length := by
  intro chunks
  induction chunks with
  | nil =>
    intro idx st _
    simp [runChunkLoop]
  | cons chunk rest ih =>
    intro idx st hfinal
    rw [runChunkLoop] at hfinal ⊢
    by_cases hcap : MAX_FACTS ≤ st.facts.length
    · rw [if_pos hcap] at hfinal
      omega
    · rw [if_neg hcap] at hfinal ⊢
      have hstep := ih (idx + 1)
        (processChunk jp oracle topic ts total idx chunk st) hfinal
      rcases processChunk_state jp oracle topic ts total idx chunk st with
        ⟨e, he, _⟩ | ⟨contents, src, calls2, heq⟩
      · obtain ⟨r, hr⟩ := hok st.calls
        rw [hr] at he
        cases he
      · rw [heq] at hstep ⊢
        simp only [List.filter_append, List.length_append] at hstep
        have hs : ((([AIProgressEvent.parseChunkStart topic idx total,
            AIProgressEvent.parseChunkComplete topic idx total
              (collectFactsFromContents topic ts src MAX_FACTS contents
                st.facts st.seen).2.2]).filter isChunkStart).length) = 1 := by
          simp [isChunkStart]
        have hc : ((([AIProgressEvent.parseChunkStart topic idx total,
            AIProgressEvent.parseChunkComplete topic idx total
              (collectFactsFromContents topic ts src MAX_FACTS contents
                st.facts st.seen).2.2]).filter isChunkComplete).length) = 1 := by
          simp [isChunkComplete]
        rw [hs, hc] at hstep
        simp only [List.length_cons]
        omega

/-! ## Chunking lemmas (chunk size 6000, the source constant) -/

theorem chunksOfGo_join :
    ∀ (fuel : Nat) (cs : List Char), cs.length ≤ fuel →
      (chunksOfGo 6000 fuel cs).flatten = cs := by
  intro fuel
  induction fuel with
  | zero =>
    intro cs hlen
    have : cs = [] := List.length_eq_zero.mp (Nat.le_zero.mp hlen)
    subst this
    rfl
  | succ fuel ih =>
    intro cs hlen
    cases cs with
    | nil => rfl
    | cons c rest =>
      rw [chunksOfGo]
      rw [List.flatten_cons]
      rw [ih ((c :: rest).drop 6000) (by simp [List.length_drop] at hlen ⊢; omega)]
      exact List.take_append_drop 6000 (c :: rest)

theorem chunksOfGo_count :
    ∀ (fuel : Nat) (cs : List Char), cs.length ≤ fuel → cs ≠ [] →
      (chunksOfGo 6000 fuel cs).length = (cs.length + 5999) / 6000 := by
  intro fuel
  induction fuel with
  | zero =>
    intro cs hlen hne
    exact absurd (List.length_eq_zero.mp (Nat.le_zero.mp hlen)) hne
  | succ fuel ih =>
    intro cs hlen hne
    cases cs with
    | nil => exact absurd rfl hne
    | cons c rest =>
      rw [chunksOfGo]
      by_cases hsmall : rest.length + 1 ≤ 6000
      · have hdrop : (c :: rest).drop 6000 = [] := by
          apply List.drop_eq_nil_of_le
          simp; omega
        rw [hdrop]
        have : chunksOfGo 6000 fuel ([] : List Char) = [] := by
          cases fuel <;> rfl
        rw [this]
        simp only [List.length_cons, List.length_nil]
        omega
      · have hdlen : ((c :: rest).drop 6000).length = rest.length + 1 - 6000 := by
          simp
        have hdne : (c :: rest).drop 6000 ≠ [] := by
          intro hnil
          rw [hnil] at hdlen
          simp at hdlen
          omega
        simp only [List.length_cons]
        rw [ih ((c :: rest).drop 6000)
          (by simp only [List.length_cons] at hlen; rw [hdlen]; omega) hdne]
        rw [hdlen]
        omega

theorem chunksOfGo_mem :
    ∀ (fuel : Nat) (cs : List Char), cs.length ≤ fuel →
      ∀ c ∈ chunksOfGo 6000 fuel cs, c ≠ [] ∧ c.length ≤ 6000 := by
  intro fuel
  induction fuel with
  | zero =>
    intro cs hlen c hc
    have : cs = [] := List.length_eq_zero.mp (Nat.le_zero.mp hlen)
    subst this
    cases hc
  | succ fuel ih =>
    intro cs hlen c hc
    cases cs with
    | nil => cases hc
    | cons a rest =>
      rw [chunksOfGo] at hc
      rcases List.mem_cons.mp hc with rfl | hc
      · constructor
        · have : (200 : Nat) = 200 := rfl
          have h6 : (6000 : Nat) = 5999 + 1 := rfl
          rw [h6, List.take_succ_cons]
          simp
        · have := List.length_take_le 6000 (a :: rest)
          omega
      · exact ih ((a :: rest).drop 6000)
          (by simp only [List.length_cons] at hlen; simp; omega) c hc

theorem chunksOfGo_full :
    ∀ (fuel : Nat) (cs : List Char), cs.length ≤ fuel →
      ∀ i (hi : i < (chunksOfGo 6000 fuel cs).length),
        i + 1 < (chunksOfGo 6000 fuel cs).length →
        ((chunksOfGo 6000 fuel cs).get ⟨i, hi⟩).length = 6000 := by
  intro fuel
  induction fuel with
  | zero =>
    intro cs hlen i hi _
    have : cs = [] := List.length_eq_zero.mp (Nat.le_zero.mp hlen)
    subst this
    simp [chunksOfGo] at hi
  | succ fuel ih =>
    intro cs hlen i hi hnext
    cases cs with
    | nil => simp [chunksOfGo] at hi
    | cons a rest =>
      have heq : chunksOfGo 6000 (fuel + 1) (a :: rest)
          = (a :: rest).take 6000 :: chunksOfGo 6000 fuel ((a :: rest).drop 6000) :=
        by rw [chunksOfGo]
      rcases i with _ | i
      · rw [List.get_of_eq heq]
        show (List.take 6000 (a :: rest)).length = 6000
        have hlen2 : 1 ≤ (chunksOfGo 6000 fuel ((a :: rest).drop 6000)).length := by
          rw [heq] at hnext
          simp only [List.length_cons] at hnext
          omega
        have hdne : (a :: rest).drop 6000 ≠ [] := by
          intro hnil
          rw [hnil] at hlen2
          have : chunksOfGo 6000 fuel ([] : List Char) = [] := by
            cases fuel <;> rfl
          rw [this] at hlen2
          simp at hlen2
        have hglen : 6001 ≤ (a :: rest).length := by
          by_contra hlt
          exact hdne (List.drop_eq_nil_of_le (by omega))
        rw [List.length_take]
        omega
      · rw [List.get_of_eq heq]
        have hi2 : i < (chunksOfGo 6000 fuel ((a :: rest).drop 6000)).length := by
          rw [heq] at hi
          simpa using hi
        have hnext2 : i + 1 < (chunksOfGo 6000 fuel ((a :: rest).drop 6000)).length := by
          rw [heq] at hnext
          simpa using hnext
        show ((chunksOfGo 6000 fuel ((a :: rest).drop 6000)).get ⟨i, hi2⟩).length = 6000
        exact ih ((a :: rest).drop 6000)
          (by simp only [List.length_cons] at hlen; simp; omega) i hi2 hnext2

/-! ## Shape of extracted facts -/

theorem factShape_ok (f : Fact) (h : FactContentShape f) :
    1 ≤ (trimS f.content).data.length ∧ (trimS f.content).data.length ≤ 200 := by
  obtain ⟨raw, hne, hc⟩ := h
  rw [hc]
  have hdata : (trimS (takeS 200 (trimS raw))).data
      = trimChars ((trimChars raw.data).take 200) := by
    simp [trimS, takeS]
  rw [hdata]
  exact trimmed_take200_ok raw.data hne

theorem splitSentences_shape (text : String) :
    ∀ s ∈ splitTextIntoSentences text,
      ∃ cs, s = String.mk (trimChars cs) ∧ trimChars cs ≠ [] := by
  intro s hs
  simp only [splitTextIntoSentences] at hs
  split at hs
  · cases hs
  · have hlen := List.of_mem_filter hs
    have hmap := List.mem_of_mem_filter hs
    rcases List.mem_map.mp hmap with ⟨cs, _, rfl⟩
    refine ⟨cs, rfl, ?_⟩
    intro hnil
    simp only [decide_eq_true_eq] at hlen
    rw [hnil] at hlen
    simp at hlen

theorem fallbackFacts_shape (ts text topic : String) (f : Fact)
    (hf : f ∈ fallbackParseTextToFacts ts text topic) :
    f.source = FactSource.fallback ∧
      ∃ s ∈ splitTextIntoSentences text, f.content = takeS 200 s := by
  unfold fallbackParseTextToFacts at hf
  rcases List.mem_map.mp hf with ⟨s, hs, rfl⟩
  exact ⟨rfl, s, List.take_subset 60 _ hs, rfl⟩

/-! ## Claim C2 -/

/-- C2: every fact produced by the extraction pipeline — in model mode and
in sentence-segmentation fallback mode alike — has trimmed content of
length between 1 and 200 characters. -/
theorem c2_fact_content_length (jp : String → Option Json)
    (oracle : Nat → Except String String) (ts : String)
    (fallbackEnabled hasLm : Bool) (text topic : String) (f : Fact)
    (hf : f ∈ (parseTextToFacts jp oracle ts fallbackEnabled hasLm text topic).1) :
    1 ≤ (trimS f.content).data.length ∧ (trimS f.content).data.length ≤ 200 := by
  simp only [parseTextToFacts] at hf
  by_cases hempty : (trimS text).data = []
  · rw [if_pos hempty] at hf
    cases hf
  · rw [if_neg hempty] at hf
    by_cases hdeg : (fallbackEnabled || !hasLm) = true
    · rw [if_pos hdeg] at hf
      obtain ⟨_, s, hs, hc⟩ := fallbackFacts_shape ts (trimS text) topic f hf
      obtain ⟨cs, rfl, hne⟩ := splitSentences_shape (trimS text) s hs
      have hraw : trimChars (String.mk (trimChars cs)).data ≠ [] := by
        show trimChars (trimChars cs) ≠ []
        rw [trimChars_idem]
        exact hne
      have hfix : trimS (String.mk (trimChars cs)) = String.mk (trimChars cs) := by
        simp [trimS, trimChars_idem]
      have hcontent : f.content = takeS 200 (trimS (String.mk (trimChars cs))) := by
        rw [hc, hfix]
      exact factShape_ok f ⟨String.mk (trimChars cs), hraw, hcontent⟩
    · rw [if_neg hdeg] at hf
      obtain ⟨new, hfacts, hprops⟩ := runChunkLoop_facts jp oracle topic ts
        ((chunksOf 6000 (trimS text).data).map String.mk).length
        ((chunksOf 6000 (trimS text).data).map String.mk) 1
        { facts := [], seen := [],
          events := [AIProgressEvent.parseStart topic
            ((chunksOf 6000 (trimS text).data).map String.mk).length],
          calls := 0 }
      rw [hfacts] at hf
      simp only [List.nil_append] at hf
      exact factShape_ok f (hprops f hf)

/-- C2 witness: a degraded-mode run on `"Hi."` produces one fact whose
trimmed content has length 3. -/
theorem c2_fact_content_length_witness :
    (⟨0, "Hi.", "animals", FactSource.fallback, "t0"⟩ : Fact)
        ∈ (parseTextToFacts (fun _ => none) (fun _ => Except.error "off") "t0"
            false false "Hi." "animals").1 ∧
    1 ≤ (trimS (("Hi." : String))).data.length ∧
      (trimS (("Hi." : String))).data.length ≤ 200 := by
  refine ⟨by decide, ?_⟩
  exact c2_fact_content_length (fun _ => none) (fun _ => Except.error "off")
    "t0" false false "Hi." "animals"
    (⟨0, "Hi.", "animals", FactSource.fallback, "t0"⟩ : Fact) (by decide)

/-! ## Claim C1 -/

/-- The spec's normalization: trim + lowercase + collapse-whitespace
(modelled from the spec's words, for comparison with the code's
normalization, which lowercases but does not collapse whitespace). -/
def specNormalize (s : String) : String :=
  String.mk (trimChars (collapseWs (s.data.map Char.toLower)))

/-- C1 counterexample: in full sentence-segmentation fallback mode
(completion capability absent) the run performs no deduplication at all:
the input `"Hi. Hi."` yields two facts with identical content, hence
identical trim+lowercase+collapse-whitespace normalizations. -/
theorem c1_dedup_counterexample :
    ((parseTextToFacts (fun _ => none) (fun _ => Except.error "off") "t0"
        false false "Hi. Hi." "animals").1.map
          (fun f => specNormalize f.content)) = ["hi.", "hi."] ∧
    ¬ ((parseTextToFacts (fun _ => none) (fun _ => Except.error "off") "t0"
        false false "Hi. Hi." "animals").1.map
          (fun f => specNormalize f.content)).Nodup := by
  constructor
  · decide
  · decide

/-- C1 (amended): in model mode (including per-chunk sentence fallback) the
run-scoped dedup set guarantees that no two facts share the same
lower-cased content — contents are already trimmed and truncated, but
interior whitespace is not collapsed; the whole-run fallback mode
deduplicates nothing. -/
theorem c1_model_mode_dedup (jp : String → Option Json)
    (oracle : Nat → Except String String) (ts text topic : String) :
    ((parseTextToFacts jp oracle ts false true text topic).1.map
      (fun f => lowerS f.content)).Nodup := by
  simp only [parseTextToFacts]
  by_cases hempty : (trimS text).data = []
  · rw [if_pos hempty]
    simp
  · rw [if_neg hempty]
    rw [if_neg (by simp)]
    have := runChunkLoop_dedup jp oracle topic ts
      ((chunksOf 6000 (trimS text).data).map String.mk).length
      ((chunksOf 6000 (trimS text).data).map String.mk) 1
      { facts := [], seen := [],
        events := [AIProgressEvent.parseStart topic
          ((chunksOf 6000 (trimS text).data).map String.mk).length],
        calls := 0 }
      (by
        unfold ParseDedupInv
        refine ⟨?_, ?_⟩
        · intro f hf
          cases hf
        · simp)
    exact this.2

/-! ## Claim C3 -/

/-- C3 counterexample: with a failing completion call, a one-chunk
model-mode run emits its `parse-chunk-start` but no `parse-chunk-complete`
(`continue` skips it), so the number of start/complete pairs is 0, not
`ceil(L/C) = 1`. -/
theorem c3_chunk_pairs_counterexample :
    (((parseTextToFacts (fun _ => none) (fun _ => Except.error "boom") "t0"
        false true "a" "animals").2).filter isChunkStart).length = 1 ∧
    (((parseTextToFacts (fun _ => none) (fun _ => Except.error "boom") "t0"
        false true "a" "animals").2).filter isChunkComplete).length = 0 ∧
    ((trimS "a").data.length + 5999) / 6000 = 1 := by
  refine ⟨by decide, by decide, by decide⟩

/-- C3 (amended): in model mode, provided every completion call succeeds
and the 120-fact cap is not reached, a non-empty trimmed input of length
`L` yields exactly `ceil(L/6000)` `parse-chunk-start` events and the same
number of `parse-chunk-complete` events, over chunks that concatenate back
to the input in order, are non-empty, at most 6000 chars, and all of full
size except possibly the last. -/
theorem c3_chunk_events (jp : String → Option Json)
    (oracle : Nat → Except String String) (ts text topic : String)
    (hne : (trimS text).data ≠ [])
    (hok : ∀ n, ∃ r, oracle n = Except.ok r)
    (hcap : (parseTextToFacts jp oracle ts false true text topic).1.length
      < MAX_FACTS) :
    (((parseTextToFacts jp oracle ts false true text topic).2).filter
        isChunkStart).length = ((trimS text).data.length + 5999) / 6000 ∧
    (((parseTextToFacts jp oracle ts false true text topic).2).filter
        isChunkComplete).length = ((trimS text).data.length + 5999) / 6000 ∧
    (chunksOf 6000 (trimS text).data).flatten = (trimS text).data ∧
    (∀ c ∈ chunksOf 6000 (trimS text).data, c ≠ [] ∧ c.length ≤ 6000) ∧
    (∀ i (hi : i < (chunksOf 6000 (trimS text).data).length),
      i + 1 < (chunksOf 6000 (trimS text).data).length →
      ((chunksOf 6000 (trimS text).data).get ⟨i, hi⟩).length = 6000) := by
  refine ⟨?_, ?_,
    chunksOfGo_join (trimS text).data.length (trimS text).data (Nat.le_refl _),
    chunksOfGo_mem (trimS text).data.length (trimS text).data (Nat.le_refl _),
    chunksOfGo_full (trimS text).data.length (trimS text).data (Nat.le_refl _)⟩
  all_goals
    simp only [parseTextToFacts] at hcap ⊢
    rw [if_neg hne] at hcap ⊢
    rw [if_neg (by simp)] at hcap ⊢
    have hcount := runChunkLoop_event_counts jp oracle topic ts
      ((chunksOf 6000 (trimS text).data).map String.mk).length hok
      ((chunksOf 6000 (trimS text).data).map String.mk) 1
      { facts := [], seen := [],
        events := [AIProgressEvent.parseStart topic
          ((chunksOf 6000 (trimS text).data).map String.mk).length],
        calls := 0 }
      hcap
    have hchunks : ((chunksOf 6000 (trimS text).data).map String.mk).length
        = ((trimS text).data.length + 5999) / 6000 := by
      rw [List.length_map]
      exact chunksOfGo_count (trimS text).data.length (trimS text).data
        (Nat.le_refl _) hne
  · rw [List.filter_append]
    simp only [List.length_append]
    rw [hcount.1]
    rw [hchunks]
    simp [isChunkStart]
  · rw [List.filter_append]
    simp only [List.length_append]
    rw [hcount.2]
    rw [hchunks]
    simp [isChunkComplete]

/-- C3 witness: a one-chunk run with all completion calls succeeding emits
one start/complete pair, and the single chunk is the whole text. -/
theorem c3_chunk_events_witness :
    (trimS "hello").data ≠ [] ∧
    (parseTextToFacts (fun _ => none) (fun _ => Except.ok "resp") "t0"
        false true "hello" "animals").1.length < MAX_FACTS ∧
    (((parseTextToFacts (fun _ => none) (fun _ => Except.ok "resp") "t0"
        false true "hello" "animals").2).filter isChunkStart).length
      = ((trimS "hello").data.length + 5999) / 6000 ∧
    (((parseTextToFacts (fun _ => none) (fun _ => Except.ok "resp") "t0"
        false true "hello" "animals").2).filter isChunkComplete).length
      = ((trimS "hello").data.length + 5999) / 6000 := by
  refine ⟨by decide, by decide, ?_⟩
  have := c3_chunk_events (fun _ => none) (fun _ => Except.ok "resp") "t0"
    "hello" "animals" (by decide) (fun n => ⟨"resp", rfl⟩) (by decide)
  exact ⟨this.1, this.2.1⟩

/-! ## Claim C6 -/

/-- C6 counterexample: a failing completion call for a chunk does NOT
trigger the sentence-segmentation fallback for that chunk and does NOT
emit its `parse-chunk-complete` event: the chunk is skipped entirely
(the sentence splitter would have produced two facts here). -/
theorem c6_failure_counterexample :
    (parseTextToFacts (fun _ => none) (fun _ => Except.error "boom") "t0"
        false true "Hello. World." "animals").1 = [] ∧
    (((parseTextToFacts (fun _ => none) (fun _ => Except.error "boom") "t0"
        false true "Hello. World." "animals").2).filter isChunkComplete) = [] ∧
    (splitTextIntoSentences (trimS "Hello. World.")).length = 2 := by
  refine ⟨by decide, by decide, by decide⟩

/-- C6 (amended): a per-chunk completion failure is caught and never
propagated — the loop simply continues with the next chunk — but the
failed chunk is skipped entirely: only its `parse-chunk-start` event is
emitted, no sentence fallback runs and no `parse-chunk-complete` event is
emitted for it; moreover no run ever emits a `parse-error` event through
this path. -/
theorem c6_completion_failure_skips_chunk :
    (∀ (jp : String → Option Json) (oracle : Nat → Except String String)
        (topic ts : String) (total idx : Nat) (chunk : String)
        (rest : List String) (st : ParseState) (e : String),
      st.facts.length < MAX_FACTS →
      oracle st.calls = Except.error e →
      runChunkLoop jp oracle topic ts total idx (chunk :: rest) st
        = runChunkLoop jp oracle topic ts total (idx + 1) rest
            { st with
              events := st.events ++
                [AIProgressEvent.parseChunkStart topic idx total],
              calls := st.calls + 1 }) ∧
    (∀ (jp : String → Option Json) (oracle : Nat → Except String String)
        (ts : String) (fallbackEnabled hasLm : Bool) (text topic : String),
      ((parseTextToFacts jp oracle ts fallbackEnabled hasLm text topic).2).filter
        isParseError = []) := by
  constructor
  · intro jp oracle topic ts total idx chunk rest st e hlt herr
    rw [runChunkLoop]
    rw [if_neg (by omega)]
    have hstep : processChunk jp oracle topic ts total idx chunk st
        = { st with
            events := st.events ++
              [AIProgressEvent.parseChunkStart topic idx total],
            calls := st.calls + 1 } := by
      simp only [processChunk, runCompletion, herr]
    rw [hstep]
  · intro jp oracle ts fallbackEnabled hasLm text topic
    simp only [parseTextToFacts]
    by_cases hempty : (trimS text).data = []
    · rw [if_pos hempty]
      rfl
    · rw [if_neg hempty]
      by_cases hdeg : (fallbackEnabled || !hasLm) = true
      · rw [if_pos hdeg]
        rfl
      · rw [if_neg hdeg]
        have hlen := runChunkLoop_no_parse_error jp oracle topic ts
          ((chunksOf 6000 (trimS text).data).map String.mk).length
          ((chunksOf 6000 (trimS text).data).map String.mk) 1
          { facts := [], seen := [],
            events := [AIProgressEvent.parseStart topic
              ((chunksOf 6000 (trimS text).data).map String.mk).length],
            calls := 0 }
        rw [List.filter_append]
        have h0 : (([AIProgressEvent.parseStart topic
            ((chunksOf 6000 (trimS text).data).map String.mk).length]).filter
              isParseError) = [] := by
          simp [isParseError]
        rw [show ((runChunkLoop jp oracle topic ts
            ((chunksOf 6000 (trimS text).data).map String.mk).length 1
            ((chunksOf 6000 (trimS text).data).map String.mk)
            { facts := [], seen := [],
              events := [AIProgressEvent.parseStart topic
                ((chunksOf 6000 (trimS text).data).map String.mk).length],
              calls := 0 }).events.filter isParseError) = [] from by
          apply List.length_eq_zero.mp
          rw [hlen]
          rw [h0]
          rfl]
        simp [isParseError]

/-- C6 witness: with the first chunk's completion failing, the step
equation holds at a concrete state, and a concrete failing run emits no
`parse-error` event. -/
theorem c6_completion_failure_skips_chunk_witness :
    runChunkLoop (fun _ => none) (fun _ => Except.error "boom") "animals" "t0"
        1 1 ["Hello. World."]
        { facts := [], seen := [], events := [], calls := 0 }
      = runChunkLoop (fun _ => none) (fun _ => Except.error "boom") "animals"
          "t0" 1 2 []
          { facts := [], seen := [],
            events := [AIProgressEvent.parseChunkStart "animals" 1 1],
            calls := 1 } ∧
    ((parseTextToFacts (fun _ => none) (fun _ => Except.error "boom") "t0"
        false true "Hello. World." "animals").2).filter isParseError = [] := by
  constructor
  · exact c6_completion_failure_skips_chunk.1 (fun _ => none)
      (fun _ => Except.error "boom") "animals" "t0" 1 1 "Hello. World." []
      { facts := [], seen := [], events := [], calls := 0 } "boom"
      (by decide) rfl
  · exact c6_completion_failure_skips_chunk.2 (fun _ => none)
      (fun _ => Except.error "boom") "t0" false true "Hello. World." "animals"

/-! ## Claim C7 -/

set_option maxRecDepth 4000 in
/-- C7 counterexample: in degraded mode a sentence longer than 200 chars
is truncated, so the resulting fact content is not itself one of the
sentences produced by the splitting (201 `a`s give one 201-char sentence
but a 200-char fact). -/
theorem c7_degraded_counterexample :
    ((parseTextToFacts (fun _ => none) (fun _ => Except.error "off") "t0"
        false false (String.mk (List.replicate 201 'a')) "animals").1.map
          (fun f => f.content))
      = [String.mk (List.replicate 200 'a')] ∧
    ¬ (String.mk (List.replicate 200 'a'))
        ∈ splitTextIntoSentences (trimS (String.mk (List.replicate 201 'a'))) := by
  refine ⟨by decide, by decide⟩

/-- C7 (amended): with the completion capability absent, extraction
returns only `source = fallback` facts, at most 60 of them, each content
being the first at-most-200 chars of a (trimmed) sentence obtained by
whitespace-collapsing and splitting on sentence-terminal punctuation
followed by whitespace; when the sentence exceeds 200 chars the content is
its truncation rather than the sentence itself. -/
theorem c7_degraded_mode (jp : String → Option Json)
    (oracle : Nat → Except String String) (ts : String)
    (fallbackEnabled hasLm : Bool) (text topic : String)
    (hdeg : fallbackEnabled = true ∨ hasLm = false) :
    (parseTextToFacts jp oracle ts fallbackEnabled hasLm text topic).1.length
        ≤ 60 ∧
    ∀ f ∈ (parseTextToFacts jp oracle ts fallbackEnabled hasLm text topic).1,
      f.source = FactSource.fallback ∧ f.content.data.length ≤ 200 ∧
      ∃ s ∈ splitTextIntoSentences (trimS text), f.content = takeS 200 s := by
  have hcond : (fallbackEnabled || !hasLm) = true := by
    rcases hdeg with h | h <;> simp [h]
  simp only [parseTextToFacts]
  by_cases hempty : (trimS text).data = []
  · rw [if_pos hempty]
    exact ⟨by simp, by intro f hf; cases hf⟩
  · rw [if_neg hempty, if_pos hcond]
    constructor
    · unfold fallbackParseTextToFacts
      rw [List.length_map]
      have := List.length_take_le 60 (splitTextIntoSentences (trimS text))
      omega
    · intro f hf
      obtain ⟨hsrc, s, hs, hc⟩ := fallbackFacts_shape ts (trimS text) topic f hf
      refine ⟨hsrc, ?_, s, hs, hc⟩
      rw [hc]
      have := List.length_take_le 200 s.data
      simpa [takeS] using this

/-- C7 witness: a degraded run on `"Hi."` produces one fallback fact whose
content is the (short) sentence itself. -/
theorem c7_degraded_mode_witness :
    (parseTextToFacts (fun _ => none) (fun _ => Except.error "off") "t0"
        false false "Hi." "animals").1.length ≤ 60 ∧
    ((⟨0, "Hi.", "animals", FactSource.fallback, "t0"⟩ : Fact).source
        = FactSource.fallback ∧
      (⟨0, "Hi.", "animals", FactSource.fallback, "t0"⟩ : Fact).content.data.length
        ≤ 200 ∧
      ∃ s ∈ splitTextIntoSentences (trimS "Hi."),
        (⟨0, "Hi.", "animals", FactSource.fallback, "t0"⟩ : Fact).content
          = takeS 200 s) :=
  ⟨(c7_degraded_mode (fun _ => none) (fun _ => Except.error "off") "t0"
      false false "Hi." "animals" (Or.inr rfl)).1,
   (c7_degraded_mode (fun _ => none) (fun _ => Except.error "off") "t0"
      false false "Hi." "animals" (Or.inr rfl)).2
     (⟨0, "Hi.", "animals", FactSource.fallback, "t0"⟩ : Fact) (by decide)⟩

end Doomless
